import Mathlib

/-!
Verification of the task/scheduler core of the ftp-kr repository
(`src/work.ts`).  The TypeScript classes `TaskImpl`, `OnCancel` and
`Scheduler` are shallowly embedded: machine state becomes explicit records,
promises become a three-valued settlement state, callbacks registered with
`oncancel` are identified by numeric ids whose behaviour (throwing or not)
is supplied as a function, and the event-loop interleavings relevant to the
claims become explicit command lists.
-/

namespace FtpKr

/-- Values thrown or carried around in the JavaScript embedding: the
`CANCELLED` sentinel symbol, `undefined`, `Error` objects (identified by
their message) and plain numbers. -/
inductive JsValue where
  | CANCELLED : JsValue
  | undefined : JsValue
  | errorMsg : String → JsValue
  | num : Nat → JsValue
deriving DecidableEq, Repr

/-- The `TaskState` enum of `work.ts`: `WAIT`, `STARTED`, `DONE`. -/
inductive TaskState where
  | WAIT : TaskState
  | STARTED : TaskState
  | DONE : TaskState
deriving DecidableEq, Repr

/-- Numeric value of a `TaskState`, used for the `state >= STARTED`
comparison in `play`. -/
def TaskState.toCode : TaskState → Nat
  | TaskState.WAIT => 0
  | TaskState.STARTED => 1
  | TaskState.DONE => 2

/-- Settlement state of a JavaScript promise. -/
inductive JsPromise where
  | pending : JsPromise
  | fulfilled : JsPromise
  | rejected : JsValue → JsPromise
deriving DecidableEq, Repr

/-- Calling the captured `resolve` of a promise: settles a pending promise,
no effect on an already settled one. -/
def JsPromise.resolveP : JsPromise → JsPromise
  | JsPromise.pending => JsPromise.fulfilled
  | p => p

/-- State of one `TaskImpl` object.  `state`, `cancelled`, `cancelListeners`
(listeners as numeric ids), `promise` (the completion signal whose `resolve`
the constructor captured) and `next` are the fields of the class; `bodyRan`,
`awaiting` and `playSettled` record the observable execution status of
`play()`: whether the body function was invoked, whether `play` is currently
suspended awaiting the body, and whether the promise returned by `play()`
has settled. -/
structure TaskRec where
  state : TaskState
  cancelled : Bool
  cancelListeners : List Nat
  promise : JsPromise
  next : Option Nat
  bodyRan : Bool
  awaiting : Bool
  playSettled : Bool
deriving DecidableEq, Repr

/-- A freshly constructed `TaskImpl`. -/
def mkTask : TaskRec :=
  ⟨TaskState.WAIT, false, [], JsPromise.pending, none, false, false, false⟩

instance : Inhabited TaskRec := ⟨mkTask⟩

/-- `Array.prototype.lastIndexOf`: index of the last occurrence. -/
def lastIndexOfList (x : Nat) : List Nat → Option Nat
  | [] => none
  | a :: as =>
    match lastIndexOfList x as with
    | some i => some (i + 1)
    | none => if a = x then some 0 else none

/-- `Array.prototype.splice(i, 1)`: drop the element at index `i`. -/
def spliceOne (l : List Nat) (i : Nat) : List Nat :=
  l.take i ++ l.drop (i + 1)

/-- `TaskImpl.removeCancelListener`: `lastIndexOf` then `splice`; returns
whether a removal happened. -/
def removeCancelListener (x : Nat) (t : TaskRec) : Bool × TaskRec :=
  match lastIndexOfList x t.cancelListeners with
  | none => (false, t)
  | some i => (true, { t with cancelListeners := spliceOne t.cancelListeners i })

/-- The loop body of `TaskImpl.fireCancel`: invoke the listeners in order;
`throws` tells which listener invocations throw.  Returns the list of
listeners actually invoked and the first exception (the listener id that
threw), if any.  A throw aborts the `for..of` loop. -/
def fireCancelAux (throws : Nat → Bool) : List Nat → List Nat × Option Nat
  | [] => ([], none)
  | l :: ls =>
    if throws l then ([l], some l)
    else
      let r := fireCancelAux throws ls
      (l :: r.1, r.2)

/-- `TaskImpl.fireCancel`: run the listeners; only when the loop completes
does `this.cancelListeners.length = 0` execute.  Returns the new task state,
the invoked listeners, and the propagated exception if a listener threw. -/
def fireCancel (throws : Nat → Bool) (t : TaskRec) :
    TaskRec × List Nat × Option Nat :=
  let r := fireCancelAux throws t.cancelListeners
  match r.2 with
  | none => ({ t with cancelListeners := [] }, r.1, none)
  | some e => (t, r.1, some e)

/-- `TaskImpl.cancel`: no-op if already cancelled, else set the flag and
fire the listeners. -/
def cancelT (throws : Nat → Bool) (t : TaskRec) :
    TaskRec × List Nat × Option Nat :=
  if t.cancelled then (t, [], none)
  else fireCancel throws { t with cancelled := true }

/-- `TaskImpl.oncancel`: on an already cancelled task the callback runs
immediately and the returned `OnCancel` handle has no target; otherwise the
callback is pushed and the handle targets it.  Returns the new task state,
the handle's target, and the callbacks invoked synchronously. -/
def oncancelT (cb : Nat) (t : TaskRec) : TaskRec × Option Nat × List Nat :=
  if t.cancelled then (t, none, [cb])
  else ({ t with cancelListeners := t.cancelListeners ++ [cb] }, some cb, [])

/-- `OnCancel.dispose`: no-op when the target was cleared, otherwise remove
the target from the task's listeners and clear it. -/
def disposeHandle (t : TaskRec) (h : Option Nat) : TaskRec × Option Nat :=
  match h with
  | none => (t, none)
  | some x => ((removeCancelListener x t).2, none)

/-- `TaskImpl.checkCanceled`: throws `CANCELLED` when the flag is set. -/
def checkCanceledT (t : TaskRec) : Option JsValue :=
  if t.cancelled then some JsValue.CANCELLED else none

/-- Outcome of running a task body: it returns, or it throws a value. -/
inductive BodyOutcome where
  | ret : BodyOutcome
  | thrown : JsValue → BodyOutcome
deriving DecidableEq, Repr

/-- The synchronous prefix of `TaskImpl.play`: the double-start guard, the
transition to `STARTED`, and the early return (play settles, body never
invoked) when the task was cancelled while still queued. -/
def playBegin (t : TaskRec) : Except String TaskRec :=
  if t.state.toCode ≥ TaskState.STARTED.toCode then
    Except.error "play must call once"
  else
    let t1 := { t with state := TaskState.STARTED }
    if t1.cancelled then Except.ok { t1 with playSettled := true }
    else Except.ok { t1 with bodyRan := true, awaiting := true }

/-- The continuation of `TaskImpl.play` after `await this.task(this)`
settles: a thrown `CANCELLED` is swallowed and `play` returns without
resolving; any other thrown value is reported to the error sink and then
`resolve()` runs; a normal return runs `resolve()`.  Returns the new task
state and the values reported to the error sink. -/
def playEnd (t : TaskRec) (o : BodyOutcome) : TaskRec × List JsValue :=
  let t1 := { t with awaiting := false }
  match o with
  | BodyOutcome.thrown v =>
    if v = JsValue.CANCELLED then ({ t1 with playSettled := true }, [])
    else ({ t1 with playSettled := true, promise := t1.promise.resolveP }, [v])
  | BodyOutcome.ret =>
    ({ t1 with playSettled := true, promise := t1.promise.resolveP }, [])

/-- A whole run of `play` on a task whose body settles with outcome `o`. -/
def playRun (t : TaskRec) (o : BodyOutcome) :
    Except String (TaskRec × List JsValue) :=
  match playBegin t with
  | Except.error e => Except.error e
  | Except.ok t1 =>
    if t1.awaiting then Except.ok (playEnd t1 o) else Except.ok (t1, [])

/-! ### The `with` wrapper -/

/-- Settlement of the promise returned by `with`. -/
inductive Settle where
  | res : JsValue → Settle
  | rej : JsValue → Settle
deriving DecidableEq, Repr

/-- Settle-once semantics of a promise: a later settlement attempt on an
already settled promise is ignored. -/
def settleOnce (s : Option Settle) (x : Settle) : Option Settle :=
  match s with
  | none => some x
  | some y => some y

/-- The in-flight state of a `with(waitWith)` call: the task (whose listener
list now holds the wrapper's `reject`, identified by `lid`) and the
settlement state of the wrapped promise. -/
structure RaceState where
  task : TaskRec
  lid : Nat
  settled : Option Settle
deriving DecidableEq, Repr

/-- Result of calling `with`: an immediately rejected promise, or a racing
wrapper. -/
inductive WithStart where
  | rejectedWith : JsValue → WithStart
  | racing : RaceState → WithStart
deriving DecidableEq, Repr

/-- The `Error('Task.with must call in task')` value. -/
def invalidState : JsValue := JsValue.errorMsg "Task.with must call in task"

/-- `TaskImpl.with`: reject with `invalidState` unless the task is
`STARTED`; reject with `CANCELLED` if already cancelled; otherwise register
the wrapper's `reject` (listener id `lid`) via `oncancel` and race. -/
def withCall (t : TaskRec) (lid : Nat) : WithStart :=
  if t.state ≠ TaskState.STARTED then WithStart.rejectedWith invalidState
  else if t.cancelled then WithStart.rejectedWith JsValue.CANCELLED
  else WithStart.racing
    ⟨{ t with cancelListeners := t.cancelListeners ++ [lid] }, lid, none⟩

/-- Events that can reach an in-flight `with` wrapper: the task's `cancel`
fires, or the underlying sub-operation resolves or rejects. -/
inductive RaceEvent where
  | taskCancel : RaceEvent
  | opRes : JsValue → RaceEvent
  | opRej : JsValue → RaceEvent
deriving DecidableEq, Repr

/-- One event step of the race set up by `with`.  On `cancel`, the task's
listeners fire; if the wrapper's `reject` is among them it is invoked with
no argument, settling the wrapped promise as rejected with `undefined`.
When the sub-operation settles, the handlers of `with` first test
`this.cancelled` and return if it is set; otherwise they remove the
wrapper's listener and settle the wrapped promise with the sub-operation's
outcome. -/
def raceStep (r : RaceState) : RaceEvent → RaceState
  | RaceEvent.taskCancel =>
    let c := cancelT (fun _ => false) r.task
    if r.lid ∈ c.2.1 then
      { r with task := c.1,
               settled := settleOnce r.settled (Settle.rej JsValue.undefined) }
    else { r with task := c.1 }
  | RaceEvent.opRes v =>
    if r.task.cancelled then r
    else
      { r with task := (removeCancelListener r.lid r.task).2,
               settled := settleOnce r.settled (Settle.res v) }
  | RaceEvent.opRej v =>
    if r.task.cancelled then r
    else
      { r with task := (removeCancelListener r.lid r.task).2,
               settled := settleOnce r.settled (Settle.rej v) }

/-- Run a sequence of race events. -/
def raceRun (r : RaceState) (es : List RaceEvent) : RaceState :=
  es.foldl raceStep r

/-! ### The `Scheduler` -/

/-- Behaviour of a submitted task body: it settles immediately with the
given outcome, or it stays pending until an explicit external settlement
event (`Cmd.finish`). -/
inductive BodyKind where
  | instant : BodyOutcome → BodyKind
  | pend : BodyKind
deriving DecidableEq, Repr

/-- State of one `Scheduler` lane plus its diagnostic sinks.  `tasks` holds
the `TaskImpl` records (id = index, ids are assigned in submission order),
`bodies` the behaviour of each task's body, `current`, `nextT` and `lastT`
the `currentTask` / `nextTask` / `lastTask` fields.  `startOrder` records
the order in which `play` was invoked, `messages` the task ids reported as
cancelled via `util.message`, and `errors` the values passed to
`util.error`. -/
structure Sched where
  tasks : List TaskRec
  bodies : List BodyKind
  current : Option Nat
  nextT : Option Nat
  lastT : Option Nat
  startOrder : List Nat
  messages : List Nat
  errors : List JsValue
deriving DecidableEq, Repr

/-- Number of tasks ever created on the lane. -/
def tlen (s : Sched) : Nat := s.tasks.length

/-- The record of task `i`. -/
def gT (s : Sched) (i : Nat) : TaskRec := s.tasks.getD i mkTask

/-- The body behaviour of task `i`. -/
def getBody (s : Sched) (i : Nat) : BodyKind := s.bodies.getD i BodyKind.pend

/-- Replace the record of task `i`. -/
def setTask (s : Sched) (i : Nat) (t : TaskRec) : Sched :=
  { s with tasks := s.tasks.set i t }

/-- The body of one `Scheduler.progress` step once the queue head `i` is
known: pop `i` into `currentTask`, update the queue pointers from its
`next` link, and begin its `play`.  A body that settles immediately (or a
task cancelled while queued, whose `play` returns at once) hands the
resulting state to the chained continuation `rec` (the recursive
`progress` call of `task.play().then(() => this.progress())`). -/
def dequeuePointers (s : Sched) (nx : Option Nat) : Sched :=
  match nx with
  | none => { s with nextT := none, lastT := none }
  | some j => { s with nextT := some j }

def progressAt (s : Sched) (i : Nat) (rec : Sched → Sched) : Sched :=
  let t := gT s i
  let s2 := dequeuePointers { s with current := some i } t.next
  match playBegin t with
  | Except.error _ => s2
  | Except.ok t1 =>
    let s3 := setTask { s2 with startOrder := s2.startOrder ++ [i] } i t1
    if t1.awaiting then
      match getBody s3 i with
      | BodyKind.pend => s3
      | BodyKind.instant o =>
        let r := playEnd t1 o
        rec { setTask s3 i r.1 with errors := s3.errors ++ r.2 }
    else
      rec s3

/-- `Scheduler.progress`, with the microtask chain
`task.play().then(() => this.progress())` run to quiescence: if the queue
is empty the lane goes idle; otherwise the head is processed by
`progressAt`. -/
def progress : Nat → Sched → Sched
  | 0, s => s
  | fuel + 1, s =>
    match s.nextT with
    | none => { s with current := none }
    | some i => progressAt s i (progress fuel)

/-- Append a freshly created task (id `i`) to the pending chain: link it
after `lastTask` when one exists, else make it the whole chain. -/
def enqueueTask (s : Sched) (i : Nat) : Sched :=
  match s.lastT with
  | some l =>
    { setTask s l { gT s l with next := some i } with lastT := some i }
  | none => { s with nextT := some i, lastT := some i }

/-- `Scheduler.task` (submission): construct a fresh `TaskImpl`, append it
to the pending chain through `lastTask.next` (or make it the whole chain),
and, when the lane is idle, begin `progress`. -/
def submit (s : Sched) (bk : BodyKind) : Sched :=
  let i := s.tasks.length
  let s2 := enqueueTask
    { s with tasks := s.tasks ++ [mkTask], bodies := s.bodies ++ [bk] } i
  if s2.current = none then progress (s2.tasks.length + 1) s2 else s2

/-- A pending body of task `i` settles with outcome `o`: the rest of `play`
runs (`playEnd`) and the chained `progress` advances the lane.  No effect
when task `i` is not suspended in `play`. -/
def finish (s : Sched) (i : Nat) (o : BodyOutcome) : Sched :=
  let t := gT s i
  if t.awaiting then
    let r := playEnd t o
    let s1 := { setTask s i r.1 with errors := s.errors ++ r.2 }
    progress (s1.tasks.length + 1) s1
  else s

/-- Walk a `next` chain collecting task ids, with fuel. -/
def walkChain : Nat → Sched → Option Nat → List Nat
  | 0, _, _ => []
  | _ + 1, _, none => []
  | fuel + 1, s, some i => i :: walkChain fuel s (gT s i).next

/-- `Scheduler.cancel` (a.k.a. `cancelAll`): no-op when idle; otherwise
cancel the running task, report it, null `currentTask` immediately, report
every task reachable through the running task's `next` links, and clear the
queue pointers. -/
def cancelAll (s : Sched) : Sched :=
  match s.current with
  | none => s
  | some i =>
    let c := cancelT (fun _ => false) (gT s i)
    let s1 := setTask s i c.1
    let s2 := { s1 with messages := s1.messages ++ [i], current := none }
    let rep := walkChain (tlen s2) s2 (gT s2 i).next
    { s2 with messages := s2.messages ++ rep, nextT := none, lastT := none }

/-- External events driving a lane: a submission, the settlement of a
pending task body, or `cancelAll`. -/
inductive Cmd where
  | submit : BodyKind → Cmd
  | finish : Nat → BodyOutcome → Cmd
  | cancelAll : Cmd
deriving DecidableEq, Repr

/-- Execute one command. -/
def stepCmd (s : Sched) : Cmd → Sched
  | Cmd.submit bk => submit s bk
  | Cmd.finish i o => finish s i o
  | Cmd.cancelAll => cancelAll s

/-- The initial (idle, empty) lane, as built by `new Scheduler(name)`. -/
def initSched : Sched := ⟨[], [], none, none, none, [], [], []⟩

/-- Run a command list on a fresh lane. -/
def run (cmds : List Cmd) : Sched := cmds.foldl stepCmd initSched

/-! ### Concrete states used to settle the claims -/

/-- A fresh task on which `play` has begun (body running, nothing settled). -/
def startedTask : TaskRec :=
  match playBegin mkTask with
  | Except.ok t => t
  | Except.error _ => mkTask

/-- The race state created by calling `with` (wrapper listener id `0`) on a
freshly started task. -/
def c3race : RaceState :=
  match withCall startedTask 0 with
  | WithStart.racing r => r
  | WithStart.rejectedWith _ => ⟨mkTask, 0, none⟩

/-- A task that has run to completion: `play` began, the body returned, and
`play` settled. -/
def afterRet : TaskRec :=
  match playRun mkTask BodyOutcome.ret with
  | Except.ok r => r.1
  | Except.error _ => mkTask

/-- A task whose body registered cancellation listener `7` and then
returned: `play` has settled with the listener still registered. -/
def c6task : TaskRec := (playEnd (oncancelT 7 startedTask).1 BodyOutcome.ret).1

/-- Lane after submitting a never-settling task, cancelling all, and
resubmitting another never-settling task. -/
def c1run : Sched :=
  run [Cmd.submit BodyKind.pend, Cmd.cancelAll, Cmd.submit BodyKind.pend]

/-- Lane after two submissions whose bodies settle immediately. -/
def c1run2 : Sched :=
  run [Cmd.submit (BodyKind.instant BodyOutcome.ret),
       Cmd.submit (BodyKind.instant BodyOutcome.ret)]

/-- Lane with a never-settling running task and two tasks queued behind it
(the state on which `cancelAll` is about to act). -/
def c4pre : Sched :=
  run [Cmd.submit BodyKind.pend, Cmd.submit (BodyKind.instant BodyOutcome.ret),
       Cmd.submit (BodyKind.instant BodyOutcome.ret)]

/-- Lane with a never-settling running task and two tasks queued behind it,
then `cancelAll`. -/
def c4run : Sched :=
  run [Cmd.submit BodyKind.pend, Cmd.submit (BodyKind.instant BodyOutcome.ret),
       Cmd.submit (BodyKind.instant BodyOutcome.ret), Cmd.cancelAll]

/-- Lane with a never-settling running task and one queued task, then
`cancelAll` (the queued task is discarded). -/
def c2run : Sched :=
  run [Cmd.submit BodyKind.pend, Cmd.submit BodyKind.pend, Cmd.cancelAll]

/-! ### Invariants of the scheduler state -/

/-- The pending queue is the contiguous block of task ids `[a, tlen s)`:
`nextTask` points at its head, `lastTask` at its tail, and every queued
task is still a fresh `TaskImpl` whose `next` links to its successor. -/
def ChainShape (s : Sched) (a : Nat) : Prop :=
  a ≤ tlen s ∧
  s.nextT = (if a = tlen s then none else some a) ∧
  s.lastT = (if a = tlen s then none else some (tlen s - 1)) ∧
  ∀ i, i < tlen s → a ≤ i →
    gT s i = { mkTask with next := if i + 1 < tlen s then some (i + 1) else none }

/-- Tasks that never started are untouched: promise pending, body not run,
not cancelled, not suspended, `play` not settled. -/
def WaitFresh (s : Sched) : Prop :=
  ∀ i, i < tlen s → (gT s i).state = TaskState.WAIT →
    (gT s i).promise = JsPromise.pending ∧ (gT s i).bodyRan = false ∧
    (gT s i).cancelled = false ∧ (gT s i).awaiting = false ∧
    (gT s i).playSettled = false

/-- `currentTask`, when set, names a task that exists and has started. -/
def CurOK (s : Sched) : Prop :=
  ∀ c, s.current = some c → c < tlen s ∧ (gT s c).state = TaskState.STARTED

/-- A task suspended inside `play` has started. -/
def AwOK (s : Sched) : Prop :=
  ∀ i, i < tlen s → (gT s i).awaiting = true → (gT s i).state = TaskState.STARTED

/-- Invariant of every reachable scheduler state. -/
def GInv (s : Sched) : Prop :=
  s.bodies.length = tlen s ∧ CurOK s ∧ AwOK s ∧ WaitFresh s ∧
  ∃ a, a < tlen s + 1 ∧ ChainShape s a

/-- Shape of the `currentTask` field in a run that never cancels: when
busy, the current task is the most recently started one, suspended on its
pending body, with every other started task's `play` settled; when idle,
the queue is empty and every started task's `play` has settled. -/
def NCCur (s : Sched) (a : Nat) : Prop :=
  (∀ c, s.current = some c →
    c + 1 = a ∧ (gT s c).awaiting = true ∧ (gT s c).playSettled = false ∧
    getBody s c = BodyKind.pend ∧
    ∀ i, i < a → i ≠ c → (gT s i).playSettled = true ∧ (gT s i).awaiting = false) ∧
  (s.current = none → a = tlen s ∧
    ∀ i, i < a → (gT s i).playSettled = true ∧ (gT s i).awaiting = false)

/-- Invariant of runs that never execute `cancelAll`: the started tasks are
exactly the ids below the queue head `a`, they started in id (= submission)
order, and `NCCur` pins down the lane's single in-flight task. -/
def NCInv (s : Sched) : Prop :=
  s.bodies.length = tlen s ∧
  ∃ a, ChainShape s a ∧
    (∀ i, i < a → (gT s i).state = TaskState.STARTED) ∧
    s.startOrder = List.range' 0 a ∧ NCCur s a

/-- A command list that never cancels. -/
def NoCancel (cmds : List Cmd) : Prop := ∀ c ∈ cmds, c ≠ Cmd.cancelAll

/-- Every completion promise on the lane is pending or fulfilled, never
rejected. -/
def PromOK (s : Sched) : Prop :=
  ∀ i, (gT s i).promise = JsPromise.pending ∨
    (gT s i).promise = JsPromise.fulfilled

/-! ### Statements abbreviated for the claims -/

/-- What `cancel` does once `play` has settled (claim C6, amended): the
completion outcome is untouched, but the listeners still fire. -/
def C6concl (t : TaskRec) (throws : Nat → Bool) : Prop :=
  (cancelT throws t).1.promise = t.promise ∧
  (cancelT throws t).1.playSettled = true ∧
  (cancelT throws t).1.state = t.state ∧
  (t.cancelled = false → (∀ y ∈ t.cancelListeners, throws y = false) →
    (cancelT throws t).2.1 = t.cancelListeners)

/-- Behaviour of `cancel` (claim C7, amended): idempotent; with no throwing
listener all listeners fire in order and the collection is cleared; a
throwing listener aborts the loop, propagates, and leaves the collection
uncleared. -/
def C7concl (t : TaskRec) (throws : Nat → Bool) : Prop :=
  (t.cancelled = true → cancelT throws t = (t, [], none)) ∧
  (t.cancelled = false → (∀ y ∈ t.cancelListeners, throws y = false) →
    cancelT throws t =
      ({ t with cancelled := true, cancelListeners := [] },
       t.cancelListeners, none)) ∧
  (∀ l1 x l2, t.cancelled = false → t.cancelListeners = l1 ++ x :: l2 →
    (∀ y ∈ l1, throws y = false) → throws x = true →
    cancelT throws t = ({ t with cancelled := true }, l1 ++ [x], some x))

/-- Behaviour of `oncancel` and handle disposal (claim C8). -/
def C8concl (t : TaskRec) (cb : Nat) : Prop :=
  oncancelT cb { t with cancelled := true } =
    ({ t with cancelled := true }, none, [cb]) ∧
  disposeHandle { t with cancelled := true } none =
    ({ t with cancelled := true }, none) ∧
  (oncancelT cb t).1.cancelListeners = t.cancelListeners ++ [cb] ∧
  (oncancelT cb t).2.1 = some cb ∧
  (oncancelT cb t).2.2 = [] ∧
  (disposeHandle (oncancelT cb t).1 (oncancelT cb t).2.1).1.cancelListeners
    = t.cancelListeners ∧
  (disposeHandle (oncancelT cb t).1 (oncancelT cb t).2.1).2 = none ∧
  disposeHandle (disposeHandle (oncancelT cb t).1 (oncancelT cb t).2.1).1 none
    = ((disposeHandle (oncancelT cb t).1 (oncancelT cb t).2.1).1, none) ∧
  cb ∉ (cancelT (fun _ => false)
        (disposeHandle (oncancelT cb t).1 (oncancelT cb t).2.1).1).2.1

/-- Behaviour of duplicate registration and `removeCancelListener`
(claim C9). -/
def C9concl (t : TaskRec) (cb : Nat) : Prop :=
  (oncancelT cb (oncancelT cb t).1).1.cancelListeners
    = t.cancelListeners ++ [cb, cb] ∧
  ((cancelT (fun _ => false) (oncancelT cb (oncancelT cb t).1).1).2.1).count cb
    = t.cancelListeners.count cb + 2 ∧
  removeCancelListener cb (oncancelT cb (oncancelT cb t).1).1
    = (true, { (oncancelT cb (oncancelT cb t).1).1 with
               cancelListeners := t.cancelListeners ++ [cb] }) ∧
  (cb ∉ t.cancelListeners → removeCancelListener cb t = (false, t))

/-- The record of a task right after `play` begins on it while it is still
queued and uncancelled: started, body invoked, suspended. -/
def runningTask (nx : Option Nat) : TaskRec :=
  ⟨TaskState.STARTED, false, [], JsPromise.pending, nx, true, true, false⟩

/-- Characterization of the state reached by running `progress` to
quiescence from a state with queue head `a`: some block `[a, b)` of queued
tasks has started (in order), the queue now begins at `b`, and the lane is
either suspended on the single pending-bodied task `b - 1` or idle with the
queue exhausted. -/
def PostProg (s p : Sched) (a b : Nat) : Prop :=
  a ≤ b ∧ b ≤ tlen s ∧
  tlen p = tlen s ∧
  p.bodies = s.bodies ∧
  p.messages = s.messages ∧
  ChainShape p b ∧
  (∀ i, i < a → gT p i = gT s i) ∧
  p.startOrder = s.startOrder ++ List.range' a (b - a) ∧
  (∀ i, i < b → a ≤ i →
    (gT p i).state = TaskState.STARTED ∧ (gT p i).bodyRan = true ∧
    (gT p i).cancelled = false) ∧
  (∀ c, p.current = some c → c + 1 = b ∧ a ≤ c ∧
    (gT p c).awaiting = true ∧ (gT p c).playSettled = false ∧
    getBody s c = BodyKind.pend ∧
    (∀ i, i < b → a ≤ i → i ≠ c →
      (gT p i).playSettled = true ∧ (gT p i).awaiting = false)) ∧
  (p.current = none → b = tlen s ∧
    (∀ i, i < b → a ≤ i →
      (gT p i).playSettled = true ∧ (gT p i).awaiting = false))

/-! ### List access helpers -/

theorem getD_set_of_ne {α : Type} (l : List α) (i j : Nat) (x d : α)
    (h : j ≠ i) : (l.set i x).getD j d = l.getD j d := by
  simp [List.getD_eq_getElem?_getD, List.getElem?_set_ne (by omega : i ≠ j)]

theorem getD_set_self {α : Type} (l : List α) (i : Nat) (x d : α)
    (h : i < l.length) : (l.set i x).getD i d = x := by
  simp [List.getD_eq_getElem?_getD, List.getElem?_set_eq_of_lt x h]

theorem getD_append_lt {α : Type} (l l' : List α) (d : α) (n : Nat)
    (h : n < l.length) : (l ++ l').getD n d = l.getD n d :=
  List.getD_append l l' d n h

theorem getD_append_len {α : Type} (l : List α) (x d : α) :
    (l ++ [x]).getD l.length d = x := by
  simp [List.getD_append_right]

theorem getD_oob {α : Type} (l : List α) (d : α) (n : Nat)
    (h : l.length ≤ n) : l.getD n d = d := by
  simp [List.getD_eq_getElem?_getD, List.getElem?_eq_none h]

/-! ### Listener machinery lemmas -/

theorem fireCancelAux_nothrow (throws : Nat → Bool) :
    ∀ l : List Nat, (∀ y ∈ l, throws y = false) →
      fireCancelAux throws l = (l, none) := by
  intro l
  induction l with
  | nil => intro _; rfl
  | cons a as ih =>
    intro h
    have ha : throws a = false := h a (List.mem_cons_self a as)
    have has : ∀ y ∈ as, throws y = false :=
      fun y hy => h y (List.mem_cons_of_mem a hy)
    simp [fireCancelAux, ha, ih has]

theorem fireCancelAux_first_throw (throws : Nat → Bool) :
    ∀ (l1 : List Nat) (x : Nat) (l2 : List Nat),
      (∀ y ∈ l1, throws y = false) → throws x = true →
      fireCancelAux throws (l1 ++ x :: l2) = (l1 ++ [x], some x) := by
  intro l1
  induction l1 with
  | nil => intro x l2 _ hx; simp [fireCancelAux, hx]
  | cons a as ih =>
    intro x l2 h hx
    have ha : throws a = false := h a (List.mem_cons_self a as)
    have has : ∀ y ∈ as, throws y = false :=
      fun y hy => h y (List.mem_cons_of_mem a hy)
    simp [fireCancelAux, ha, ih x l2 has hx]

theorem fireCancelAux_mem (throws : Nat → Bool) :
    ∀ (l : List Nat) (y : Nat), y ∈ (fireCancelAux throws l).1 → y ∈ l := by
  intro l
  induction l with
  | nil => intro y hy; simp [fireCancelAux] at hy
  | cons a as ih =>
    intro y hy
    by_cases ha : throws a = true
    · simp [fireCancelAux, ha] at hy
      simp [hy]
    · simp only [Bool.not_eq_true] at ha
      simp only [fireCancelAux, ha, Bool.false_eq_true, if_false,
        List.mem_cons] at hy
      rcases hy with hy | hy
      · simp [hy]
      · exact List.mem_cons_of_mem a (ih y hy)

theorem lastIndexOf_append_single (x : Nat) :
    ∀ l : List Nat, lastIndexOfList x (l ++ [x]) = some l.length := by
  intro l
  induction l with
  | nil => simp [lastIndexOfList]
  | cons a as ih => simp [lastIndexOfList, ih]

theorem lastIndexOf_not_mem (x : Nat) :
    ∀ l : List Nat, x ∉ l → lastIndexOfList x l = none := by
  intro l
  induction l with
  | nil => intro _; rfl
  | cons a as ih =>
    intro h
    have hax : a ≠ x := fun he => h (by simp [he])
    have hxs : x ∉ as := fun hm => h (List.mem_cons_of_mem a hm)
    simp [lastIndexOfList, ih hxs, hax]

theorem spliceOne_append_single (l : List Nat) (x : Nat) :
    spliceOne (l ++ [x]) l.length = l := by
  unfold spliceOne
  rw [List.take_left]
  rw [List.drop_eq_nil_of_le (by simp)]
  simp

theorem removeCancelListener_append_single (x : Nat) (t : TaskRec) :
    removeCancelListener x { t with cancelListeners := t.cancelListeners ++ [x] }
      = (true, t) := by
  simp [removeCancelListener, lastIndexOf_append_single, spliceOne_append_single]

theorem removeCancelListener_last (u : TaskRec) (x : Nat) (l : List Nat)
    (h : u.cancelListeners = l ++ [x]) :
    removeCancelListener x u = (true, { u with cancelListeners := l }) := by
  simp [removeCancelListener, h, lastIndexOf_append_single,
    spliceOne_append_single]

theorem cancelT_preserves (throws : Nat → Bool) (t : TaskRec) :
    (cancelT throws t).1.promise = t.promise ∧
    (cancelT throws t).1.state = t.state ∧
    (cancelT throws t).1.playSettled = t.playSettled ∧
    (cancelT throws t).1.next = t.next ∧
    (cancelT throws t).1.awaiting = t.awaiting ∧
    (cancelT throws t).1.bodyRan = t.bodyRan := by
  unfold cancelT fireCancel
  by_cases hc : t.cancelled
  · simp [hc]
  · simp only [hc, Bool.false_eq_true, if_false]
    cases h : (fireCancelAux throws { t with cancelled := true }.cancelListeners).2 <;> simp

/-! ### Claims settled at the task level -/

/-- C3: at the failing input — a started, not-yet-cancelled task whose
cancellation fires before the wrapped sub-operation settles — the wrapped
result rejects with `undefined` (the registered listener is the bare
`reject`, invoked with no argument), not with the `CANCELLED` sentinel;
the eventual settlement of the sub-operation has no further effect. -/
theorem C3_bug_eval :
    withCall startedTask 0 = WithStart.racing c3race ∧
    (raceRun c3race [RaceEvent.taskCancel]).settled
      = some (Settle.rej JsValue.undefined) ∧
    (raceRun c3race [RaceEvent.taskCancel, RaceEvent.opRes (JsValue.num 7)]).settled
      = some (Settle.rej JsValue.undefined) ∧
    (raceRun c3race [RaceEvent.taskCancel]).settled
      ≠ some (Settle.rej JsValue.CANCELLED) := by decide

/-- C5: `with` called before start does reject with the `InvalidState`
error, but after the task has completed (the play of `afterRet` has
settled) the state is still `STARTED` — `DONE` is never assigned — so
`with` proceeds to wait on the sub-operation instead of rejecting. -/
theorem C5_bug_eval :
    withCall mkTask 0 = WithStart.rejectedWith invalidState ∧
    afterRet.playSettled = true ∧
    afterRet.state = TaskState.STARTED ∧
    afterRet.state ≠ TaskState.DONE ∧
    withCall afterRet 3 =
      WithStart.racing ⟨{ afterRet with cancelListeners := [3] }, 3, none⟩ ∧
    withCall afterRet 3 ≠ WithStart.rejectedWith invalidState := by decide

/-- C6 counterexample: `c6task` has finished (play settled, promise
fulfilled) with listener `7` still registered, yet a cancellation request
still invokes that listener — the claim says no further listeners are
invoked once the body has finished. -/
theorem C6_counterexample :
    c6task.playSettled = true ∧ c6task.promise = JsPromise.fulfilled ∧
    (cancelT (fun _ => false) c6task).2.1 = [7] ∧
    (cancelT (fun _ => false) c6task).2.1 ≠ [] := by decide

/-- C6 amended: after the body has finished (play settled), a cancellation
request cannot change the outcome — promise, state and settlement are
untouched — but it does still invoke the remaining registered listeners,
since the code never assigns `DONE` and `cancel` never consults `state`. -/
theorem C6_amended_thm (t : TaskRec) (throws : Nat → Bool)
    (hs : t.playSettled = true) : C6concl t throws := by
  rcases cancelT_preserves throws t with ⟨hp, hst, hps, -⟩
  refine ⟨hp, by rw [hps, hs], hst, ?_⟩
  intro hc hnothrow
  simp only [cancelT, hc, Bool.false_eq_true, if_false, fireCancel]
  rw [fireCancelAux_nothrow throws _ hnothrow]

/-- C6 witness: the amended theorem applied to the concrete finished task
`c6task`. -/
theorem C6_amended_witness :
    c6task.playSettled = true ∧ C6concl c6task (fun _ => false) :=
  ⟨by decide, C6_amended_thm c6task (fun _ => false) (by decide)⟩

/-- C7 counterexample: with listeners `[0, 1]` where listener `0` throws,
`cancel` invokes only `[0]` — listener `1` never runs, the exception
propagates (`some 0`), and the listener collection is not cleared; the
claim says a throwing listener is tolerated silently and later listeners
still run. -/
theorem C7_counterexample :
    (cancelT (fun i => decide (i = 0)) { mkTask with cancelListeners := [0, 1] }).2.1
      = [0] ∧
    (1 : Nat) ∉ (cancelT (fun i => decide (i = 0))
      { mkTask with cancelListeners := [0, 1] }).2.1 ∧
    (cancelT (fun i => decide (i = 0)) { mkTask with cancelListeners := [0, 1] }).2.2
      = some 0 ∧
    (cancelT (fun i => decide (i = 0))
      { mkTask with cancelListeners := [0, 1] }).1.cancelListeners = [0, 1] := by
  decide

/-- C7 amended: cancellation is idempotent, and the first cancel sets the
flag and invokes the listeners in registration order, clearing the
collection — provided no listener throws; an exception from a listener
aborts the loop, propagates to the caller of `cancel`, skips the later
listeners, and leaves the collection uncleared. -/
theorem C7_amended_thm (t : TaskRec) (throws : Nat → Bool) :
    C7concl t throws := by
  refine ⟨?_, ?_, ?_⟩
  · intro h; simp [cancelT, h]
  · intro hc hnothrow
    simp only [cancelT, hc, Bool.false_eq_true, if_false, fireCancel]
    rw [fireCancelAux_nothrow throws _ hnothrow]
  · intro l1 x l2 hc hl hno hx
    simp only [cancelT, hc, Bool.false_eq_true, if_false, fireCancel]
    have : ({ t with cancelled := true } : TaskRec).cancelListeners
        = l1 ++ x :: l2 := hl
    rw [this, fireCancelAux_first_throw throws l1 x l2 hno hx]

/-- C7 witness: the amended theorem applied at a concrete input with a
throwing listener in the middle of the collection. -/
theorem C7_amended_witness :
    cancelT (fun i => decide (i = 1)) { mkTask with cancelListeners := [2, 1, 3] }
      = ({ mkTask with cancelled := true, cancelListeners := [2, 1, 3] },
         [2, 1], some 1) :=
  (C7_amended_thm { mkTask with cancelListeners := [2, 1, 3] }
    (fun i => decide (i = 1))).2.2 [2] 1 [3] rfl rfl (by decide) (by decide)

/-- C8: `oncancel` on an already-cancelled task fires the callback
synchronously exactly once and returns a handle whose disposal is a no-op;
on a not-yet-cancelled task, disposing the returned handle removes the
registered callback (so it never fires on later cancellation), and at most
one removal succeeds even when disposed twice. -/
theorem C8_oncancel_dispose (t : TaskRec) (cb : Nat)
    (h1 : t.cancelled = false) (h2 : cb ∉ t.cancelListeners) :
    C8concl t cb := by
  refine ⟨by simp [oncancelT], by simp [disposeHandle], ?_, ?_, ?_, ?_, ?_, ?_, ?_⟩
  · simp [oncancelT, h1]
  · simp [oncancelT, h1]
  · simp [oncancelT, h1]
  · simp [oncancelT, h1, disposeHandle, removeCancelListener,
      lastIndexOf_append_single, spliceOne_append_single]
  · simp [oncancelT, h1, disposeHandle]
  · simp [disposeHandle]
  · simp only [oncancelT, h1, Bool.false_eq_true, if_false, disposeHandle]
    rw [removeCancelListener_last _ cb t.cancelListeners (by simp)]
    simp only [cancelT, Bool.false_eq_true, if_false, fireCancel]
    rw [fireCancelAux_nothrow (fun _ => false) t.cancelListeners (by simp)]
    exact h2

/-- C8 witness: the theorem applied at a concrete not-yet-cancelled task
with one unrelated listener. -/
theorem C8_witness :
    (({ mkTask with cancelListeners := [5] } : TaskRec).cancelled = false ∧
      (9 : Nat) ∉ ({ mkTask with cancelListeners := [5] } : TaskRec).cancelListeners) ∧
    C8concl { mkTask with cancelListeners := [5] } 9 :=
  ⟨⟨rfl, by decide⟩,
   C8_oncancel_dispose { mkTask with cancelListeners := [5] } 9 rfl (by decide)⟩

/-- C9: registering the same callback twice appends two occurrences, both
fire on cancellation (the invocation count rises by two), a single removal
removes only the most recently registered occurrence and returns `true`,
and removal of an absent callback returns `false`. -/
theorem C9_duplicate_registration (t : TaskRec) (cb : Nat)
    (h1 : t.cancelled = false) : C9concl t cb := by
  have hls : (oncancelT cb (oncancelT cb t).1).1.cancelListeners
      = t.cancelListeners ++ [cb, cb] := by
    simp [oncancelT, h1]
  refine ⟨hls, ?_, ?_, ?_⟩
  · have hcanc : (oncancelT cb (oncancelT cb t).1).1.cancelled = false := by
      simp [oncancelT, h1]
    simp only [cancelT, hcanc, Bool.false_eq_true, if_false, fireCancel]
    rw [fireCancelAux_nothrow (fun _ => false) _ (by simp)]
    simp [hls]
  · rw [removeCancelListener_last _ cb (t.cancelListeners ++ [cb]) (by simp [hls])]
  · intro hmem
    simp [removeCancelListener, lastIndexOf_not_mem cb t.cancelListeners hmem]

/-- C9 witness: the theorem applied at a concrete not-yet-cancelled task. -/
theorem C9_witness :
    ({ mkTask with cancelListeners := [4] } : TaskRec).cancelled = false ∧
    C9concl { mkTask with cancelListeners := [4] } 8 :=
  ⟨rfl, C9_duplicate_registration { mkTask with cancelListeners := [4] } 8 rfl⟩

/-! ### Counterexamples at the scheduler level -/

/-- C1 counterexample: after submit, `cancelAll`, submit, both task 0 and
task 1 are in `STARTED` state with neither play settled — two tasks run at
once, and task 1 began although the completion signal of task 0 (its
promise) never settled.  Even without `cancelAll`, two immediately
finishing submissions leave both tasks in `STARTED` state forever, since
`DONE` is never assigned. -/
theorem C1_counterexample :
    ((gT c1run 0).state = TaskState.STARTED ∧
     (gT c1run 1).state = TaskState.STARTED ∧
     (gT c1run 0).playSettled = false ∧
     (gT c1run 1).playSettled = false ∧
     (gT c1run 0).awaiting = true ∧
     (gT c1run 1).awaiting = true ∧
     (gT c1run 0).promise = JsPromise.pending ∧
     c1run.startOrder = [0, 1]) ∧
    ((gT c1run2 0).state = TaskState.STARTED ∧
     (gT c1run2 1).state = TaskState.STARTED ∧
     (gT c1run2 0).playSettled = true) := by decide

/-- C4 counterexample: `cancelAll` on a lane running task 0 with tasks 1
and 2 pending reports only task 0 (the pending tasks are missed because
the `next` link of the running task is `none`), and sets `current = none`
immediately although the play of task 0 has not settled. -/
theorem C4_counterexample :
    c4run.messages = [0] ∧
    (1 : Nat) ∉ c4run.messages ∧
    (2 : Nat) ∉ c4run.messages ∧
    c4run.current = none ∧
    (gT c4run 0).playSettled = false ∧
    (gT c4run 0).awaiting = true ∧
    (gT c4run 1).state = TaskState.WAIT ∧
    (gT c4run 2).state = TaskState.WAIT := by decide

/-- C2 counterexample: a body that terminates by throwing the `CANCELLED`
signal leaves the completion promise pending (resolve is never reached),
while a body that throws any other unhandled value resolves it; and a
queued task discarded by `cancelAll` has a pending, unresolved promise. -/
theorem C2_counterexample :
    ((playRun mkTask (BodyOutcome.thrown JsValue.CANCELLED)).toOption.map
      (fun r => r.1.promise)) = some JsPromise.pending ∧
    ((playRun mkTask (BodyOutcome.thrown JsValue.CANCELLED)).toOption.map
      (fun r => r.1.playSettled)) = some true ∧
    ((playRun mkTask (BodyOutcome.thrown (JsValue.num 5))).toOption.map
      (fun r => r.1.promise)) = some JsPromise.fulfilled ∧
    (gT c2run 1).promise = JsPromise.pending ∧
    (gT c2run 1).bodyRan = false := by decide

/-! ### The completion promise never rejects -/

theorem gT_set_self (s : Sched) (i : Nat) (t : TaskRec) (h : i < tlen s) :
    gT (setTask s i t) i = t := by
  simp only [gT, setTask]
  exact getD_set_self s.tasks i t mkTask h

theorem gT_set_ne (s : Sched) (i j : Nat) (t : TaskRec) (h : j ≠ i) :
    gT (setTask s i t) j = gT s j := by
  simp only [gT, setTask]
  exact getD_set_of_ne s.tasks i j t mkTask h

theorem gT_set_cases (s : Sched) (i j : Nat) (t : TaskRec) :
    gT (setTask s i t) j = t ∨ gT (setTask s i t) j = gT s j := by
  by_cases hji : j = i
  · subst hji
    by_cases hl : j < tlen s
    · exact Or.inl (gT_set_self s j t hl)
    · refine Or.inr ?_
      simp only [gT, setTask]
      rw [List.set_eq_of_length_le (le_of_not_lt hl)]
  · exact Or.inr (gT_set_ne s i j t hji)

theorem tlen_set (s : Sched) (i : Nat) (t : TaskRec) :
    tlen (setTask s i t) = tlen s := by
  simp [tlen, setTask]

theorem resolveP_ok (p : JsPromise)
    (h : p = JsPromise.pending ∨ p = JsPromise.fulfilled) :
    p.resolveP = JsPromise.pending ∨ p.resolveP = JsPromise.fulfilled := by
  rcases h with h | h <;> subst h <;> simp [JsPromise.resolveP]

theorem playBegin_promise (t t1 : TaskRec) (h : playBegin t = Except.ok t1) :
    t1.promise = t.promise := by
  unfold playBegin at h
  split at h
  · exact absurd h (by simp)
  · dsimp only at h
    split at h <;> · injection h with h2; rw [← h2]

theorem playEnd_promise_ok (t : TaskRec) (o : BodyOutcome)
    (h : t.promise = JsPromise.pending ∨ t.promise = JsPromise.fulfilled) :
    (playEnd t o).1.promise = JsPromise.pending ∨
    (playEnd t o).1.promise = JsPromise.fulfilled := by
  unfold playEnd
  cases o with
  | ret => exact resolveP_ok _ h
  | thrown v =>
    by_cases hv : v = JsValue.CANCELLED
    · simpa [hv] using h
    · simpa [hv] using resolveP_ok _ h

theorem promOK_setTask (s : Sched) (i : Nat) (t : TaskRec)
    (hs : PromOK s)
    (ht : t.promise = JsPromise.pending ∨ t.promise = JsPromise.fulfilled) :
    PromOK (setTask s i t) := by
  intro j
  rcases gT_set_cases s i j t with h | h <;> rw [h]
  · exact ht
  · exact hs j

theorem dequeuePointers_tasks (s : Sched) (nx : Option Nat) :
    (dequeuePointers s nx).tasks = s.tasks := by cases nx <;> rfl

theorem promOK_of_tasks_eq (s u : Sched) (h : u.tasks = s.tasks)
    (hs : PromOK s) : PromOK u := by
  intro j
  simp only [gT]
  rw [h]
  exact hs j

theorem promOK_progressAt (s : Sched) (i : Nat) (rec : Sched → Sched)
    (hrec : ∀ u, PromOK u → PromOK (rec u)) (hs : PromOK s) :
    PromOK (progressAt s i rec) := by
  unfold progressAt
  dsimp only
  have hs2 : PromOK (dequeuePointers { s with current := some i } (gT s i).next) :=
    promOK_of_tasks_eq s _ (by rw [dequeuePointers_tasks]) hs
  split
  · exact hs2
  · rename_i t1 hpb
    have ht1 : t1.promise = JsPromise.pending ∨
        t1.promise = JsPromise.fulfilled := by
      rw [playBegin_promise _ _ hpb]
      exact hs i
    split
    · split
      · exact promOK_setTask _ i t1 (fun j => hs2 j) ht1
      · rename_i o ho
        apply hrec
        apply promOK_setTask
        · exact promOK_setTask _ i t1 (fun j => hs2 j) ht1
        · exact playEnd_promise_ok t1 o ht1
    · apply hrec
      exact promOK_setTask _ i t1 (fun j => hs2 j) ht1

theorem promOK_progress (fuel : Nat) :
    ∀ s : Sched, PromOK s → PromOK (progress fuel s) := by
  induction fuel with
  | zero => intro s hs; exact hs
  | succ fuel ih =>
    intro s hs
    unfold progress
    split
    · exact fun j => hs j
    · exact promOK_progressAt _ _ _ ih hs

theorem promOK_step (s : Sched) (c : Cmd) (hs : PromOK s) :
    PromOK (stepCmd s c) := by
  have hap : PromOK { s with tasks := s.tasks ++ [mkTask] } := by
    intro j
    simp only [gT]
    rcases lt_trichotomy j s.tasks.length with h | h | h
    · rw [getD_append_lt s.tasks [mkTask] mkTask j h]
      exact hs j
    · subst h
      rw [getD_append_len]
      exact Or.inl rfl
    · rw [getD_oob _ mkTask j (by simp; omega)]
      exact Or.inl rfl
  have henq : ∀ (u : Sched) (i : Nat), PromOK u → PromOK (enqueueTask u i) := by
    intro u i hu
    unfold enqueueTask
    split
    · exact promOK_setTask _ _ _ hu (hu _)
    · exact fun j => hu j
  cases c with
  | submit bk =>
    simp only [stepCmd, submit]
    split
    · exact promOK_progress _ _ (henq _ _ (fun j => hap j))
    · exact henq _ _ (fun j => hap j)
  | finish i o =>
    simp only [stepCmd, finish]
    split
    · exact promOK_progress _ _
        (promOK_setTask _ i _ hs (playEnd_promise_ok _ o (hs i)))
    · exact hs
  | cancelAll =>
    simp only [stepCmd, cancelAll]
    split
    · exact hs
    · rename_i i hc
      have h1 : PromOK (setTask s i (cancelT (fun _ => false) (gT s i)).1) := by
        apply promOK_setTask _ _ _ hs
        rw [(cancelT_preserves (fun _ => false) (gT s i)).1]
        exact hs i
      exact fun j => h1 j

theorem promOK_run (cmds : List Cmd) :
    ∀ s : Sched, PromOK s → PromOK (cmds.foldl stepCmd s) := by
  induction cmds with
  | nil => intro s hs; exact hs
  | cons c cs ih =>
    intro s hs
    exact ih (stepCmd s c) (promOK_step s c hs)

/-! ### Equations for one progress step -/

theorem playBegin_fresh (nx : Option Nat) :
    playBegin { mkTask with next := nx } = Except.ok (runningTask nx) := rfl

theorem playEnd_running (nx : Option Nat) (o : BodyOutcome) :
    (playEnd (runningTask nx) o).1.state = TaskState.STARTED ∧
    (playEnd (runningTask nx) o).1.bodyRan = true ∧
    (playEnd (runningTask nx) o).1.cancelled = false ∧
    (playEnd (runningTask nx) o).1.awaiting = false ∧
    (playEnd (runningTask nx) o).1.playSettled = true ∧
    (playEnd (runningTask nx) o).1.next = nx := by
  cases o with
  | ret => exact ⟨rfl, rfl, rfl, rfl, rfl, rfl⟩
  | thrown v =>
    by_cases hv : v = JsValue.CANCELLED <;> simp [playEnd, hv, runningTask]

/-- Case analysis of the tail of `play`: `play` always settles, the
completion promise is only ever left alone or resolved, and each body
outcome determines which. -/
theorem playEnd_cases (t : TaskRec) (o : BodyOutcome) :
    (playEnd t o).1.playSettled = true ∧
    ((playEnd t o).1.promise = t.promise ∨
     (playEnd t o).1.promise = t.promise.resolveP) ∧
    (o = BodyOutcome.ret →
      (playEnd t o).1.promise = t.promise.resolveP ∧ (playEnd t o).2 = []) ∧
    (o = BodyOutcome.thrown JsValue.CANCELLED →
      (playEnd t o).1.promise = t.promise ∧ (playEnd t o).2 = []) ∧
    (∀ v, o = BodyOutcome.thrown v → v ≠ JsValue.CANCELLED →
      (playEnd t o).1.promise = t.promise.resolveP ∧ (playEnd t o).2 = [v]) := by
  cases o with
  | ret =>
    exact ⟨rfl, Or.inr rfl, fun _ => ⟨rfl, rfl⟩,
      fun h => BodyOutcome.noConfusion h,
      fun v h _ => BodyOutcome.noConfusion h⟩
  | thrown v =>
    by_cases hv : v = JsValue.CANCELLED
    · subst hv
      refine ⟨rfl, Or.inl rfl, fun h => BodyOutcome.noConfusion h,
        fun _ => ⟨rfl, rfl⟩, ?_⟩
      intro w hw hne
      injection hw with h
      exact absurd h.symm hne
    · have he : playEnd t (BodyOutcome.thrown v) = ({ t with awaiting := false, playSettled := true, promise := t.promise.resolveP }, [v]) := by
        simp only [playEnd]
        rw [if_neg hv]
      rw [he]
      refine ⟨rfl, Or.inr rfl, fun h => BodyOutcome.noConfusion h, ?_, ?_⟩
      · intro h
        injection h with h2
        exact absurd h2 hv
      · intro w hw hne
        injection hw with h2
        subst h2
        exact ⟨rfl, rfl⟩

theorem dequeuePointers_some (s : Sched) (j : Nat) :
    dequeuePointers s (some j) = { s with nextT := some j } := rfl

theorem dequeuePointers_none (s : Sched) :
    dequeuePointers s none = { s with nextT := none, lastT := none } := rfl

theorem progress_succ (fuel : Nat) (s : Sched) :
    progress (fuel + 1) s =
      match s.nextT with
      | none => { s with current := none }
      | some i => progressAt s i (progress fuel) := rfl

theorem progressAt_pend_succ (s : Sched) (a : Nat) (rec : Sched → Sched)
    (hga : gT s a = { mkTask with next := some (a + 1) })
    (hbk : getBody s a = BodyKind.pend) :
    progressAt s a rec =
      { s with tasks := s.tasks.set a (runningTask (some (a + 1))),
               current := some a, nextT := some (a + 1),
               startOrder := s.startOrder ++ [a] } := by
  simp only [progressAt, hga]
  rw [playBegin_fresh]
  dsimp only
  rw [dequeuePointers_some]
  simp only [runningTask, eq_self_iff_true, if_true]
  simp only [getBody, setTask] at hbk ⊢
  rw [hbk]

theorem progressAt_pend_last (s : Sched) (a : Nat) (rec : Sched → Sched)
    (hga : gT s a = { mkTask with next := none })
    (hbk : getBody s a = BodyKind.pend) :
    progressAt s a rec =
      { s with tasks := s.tasks.set a (runningTask none),
               current := some a, nextT := none, lastT := none,
               startOrder := s.startOrder ++ [a] } := by
  simp only [progressAt, hga]
  rw [playBegin_fresh]
  dsimp only
  rw [dequeuePointers_none]
  simp only [runningTask, eq_self_iff_true, if_true]
  simp only [getBody, setTask] at hbk ⊢
  rw [hbk]

theorem progressAt_inst_succ (s : Sched) (a : Nat) (rec : Sched → Sched)
    (o : BodyOutcome)
    (hga : gT s a = { mkTask with next := some (a + 1) })
    (hbk : getBody s a = BodyKind.instant o) :
    progressAt s a rec =
      rec { s with
        tasks := s.tasks.set a (playEnd (runningTask (some (a + 1))) o).1,
        current := some a, nextT := some (a + 1),
        startOrder := s.startOrder ++ [a],
        errors := s.errors ++ (playEnd (runningTask (some (a + 1))) o).2 } := by
  simp only [progressAt, hga]
  rw [playBegin_fresh]
  dsimp only
  rw [dequeuePointers_some]
  simp only [runningTask, eq_self_iff_true, if_true]
  simp only [getBody, setTask] at hbk ⊢
  rw [hbk]
  dsimp only
  rw [List.set_set]

theorem progressAt_inst_last (s : Sched) (a : Nat) (rec : Sched → Sched)
    (o : BodyOutcome)
    (hga : gT s a = { mkTask with next := none })
    (hbk : getBody s a = BodyKind.instant o) :
    progressAt s a rec =
      rec { s with
        tasks := s.tasks.set a (playEnd (runningTask none) o).1,
        current := some a, nextT := none, lastT := none,
        startOrder := s.startOrder ++ [a],
        errors := s.errors ++ (playEnd (runningTask none) o).2 } := by
  simp only [progressAt, hga]
  rw [playBegin_fresh]
  dsimp only
  rw [dequeuePointers_none]
  simp only [runningTask, eq_self_iff_true, if_true]
  simp only [getBody, setTask] at hbk ⊢
  rw [hbk]
  dsimp only
  rw [List.set_set]

/-! ### Characterization of progress runs -/

theorem chainShape_step (p s : Sched) (a : Nat) (t : TaskRec)
    (hcs : ChainShape s a) (ha : a < tlen s)
    (htasks : p.tasks = s.tasks.set a t)
    (hnt : p.nextT = (if a + 1 = tlen s then none else some (a + 1)))
    (hlt2 : p.lastT = (if a + 1 = tlen s then none else some (tlen s - 1))) :
    ChainShape p (a + 1) := by
  rcases hcs with ⟨hab, -, -, hmem⟩
  have hl : tlen p = tlen s := by simp [tlen, htasks]
  refine ⟨by omega, by rw [hnt, hl], by rw [hlt2, hl], ?_⟩
  intro i h1 h2
  rw [hl] at h1
  have hia : i ≠ a := by omega
  have hgi : gT p i = gT s i := by
    simp only [gT, htasks]
    exact getD_set_of_ne _ _ _ _ _ hia
  rw [hgi, hl]
  exact hmem i h1 (by omega)

theorem postProg_pend_lit (s p : Sched) (a : Nat) (nx : Option Nat)
    (hcs : ChainShape s a) (ha : a < tlen s)
    (htasks : p.tasks = s.tasks.set a (runningTask nx))
    (hcur : p.current = some a)
    (hnt : p.nextT = (if a + 1 = tlen s then none else some (a + 1)))
    (hlt2 : p.lastT = (if a + 1 = tlen s then none else some (tlen s - 1)))
    (hso : p.startOrder = s.startOrder ++ [a])
    (hbod : p.bodies = s.bodies)
    (hmsg : p.messages = s.messages)
    (hbk : getBody s a = BodyKind.pend) :
    PostProg s p a (a + 1) := by
  have hl : tlen p = tlen s := by simp [tlen, htasks]
  have hga2 : gT p a = runningTask nx := by
    simp only [gT, htasks]
    exact getD_set_self _ _ _ _ ha
  have hgne : ∀ i, i ≠ a → gT p i = gT s i := by
    intro i hi
    simp only [gT, htasks]
    exact getD_set_of_ne _ _ _ _ _ hi
  refine ⟨by omega, by omega, hl, hbod, hmsg,
    chainShape_step p s a _ hcs ha htasks hnt hlt2,
    fun i hi => hgne i (by omega), ?_, ?_, ?_, ?_⟩
  · rw [hso]
    have h1 : a + 1 - a = 1 := by omega
    rw [h1]
    rfl
  · intro i h1 h2
    have hia : i = a := by omega
    subst hia
    rw [hga2]
    exact ⟨rfl, rfl, rfl⟩
  · intro c hc
    rw [hcur] at hc
    injection hc with hc
    subst hc
    refine ⟨rfl, le_refl _, by rw [hga2]; rfl, by rw [hga2]; rfl, hbk, ?_⟩
    intro i h1 h2 h3
    exact absurd (by omega) h3
  · intro hn
    rw [hcur] at hn
    exact absurd hn (by simp)

theorem postProg_compose (s s4 p : Sched) (a b : Nat) (o : BodyOutcome)
    (nx : Option Nat)
    (hpost : PostProg s4 p (a + 1) b)
    (ha : a < tlen s)
    (htasks : s4.tasks = s.tasks.set a (playEnd (runningTask nx) o).1)
    (hso : s4.startOrder = s.startOrder ++ [a])
    (hbod : s4.bodies = s.bodies)
    (hmsg : s4.messages = s.messages) :
    PostProg s p a b := by
  obtain ⟨hab, hbt, hlp, hpbod, hpmsg, hpcs, hunt, hpso, hstart, hcsome, hcnone⟩ :=
    hpost
  have hl4 : tlen s4 = tlen s := by simp [tlen, htasks]
  have hga2 : gT s4 a = (playEnd (runningTask nx) o).1 := by
    simp only [gT, htasks]
    exact getD_set_self _ _ _ _ ha
  have hgne : ∀ i, i ≠ a → gT s4 i = gT s i := by
    intro i hi
    simp only [gT, htasks]
    exact getD_set_of_ne _ _ _ _ _ hi
  have hgpa : gT p a = (playEnd (runningTask nx) o).1 := by
    rw [hunt a (by omega), hga2]
  obtain ⟨hf1, hf2, hf3, hf4, hf5, hf6⟩ := playEnd_running nx o
  refine ⟨by omega, by rw [← hl4]; exact hbt, by rw [hlp]; exact hl4,
    by rw [hpbod]; exact hbod, by rw [hpmsg]; exact hmsg, hpcs, ?_, ?_, ?_, ?_, ?_⟩
  · intro i hi
    rw [hunt i (by omega)]
    exact hgne i (by omega)
  · rw [hpso, hso]
    have hba : b - a = (b - (a + 1)) + 1 := by omega
    rw [hba, List.range'_succ]
    simp
  · intro i h1 h2
    rcases Nat.eq_or_lt_of_le h2 with h2e | h2l
    · subst h2e
      rw [hgpa]
      exact ⟨hf1, hf2, hf3⟩
    · exact hstart i h1 h2l
  · intro c hc
    obtain ⟨hc1, hc2, hc3, hc4, hc5, hc6⟩ := hcsome c hc
    refine ⟨hc1, by omega, hc3, hc4, ?_, ?_⟩
    · rw [show getBody s c = getBody s4 c from by simp [getBody, hbod]]
      exact hc5
    · intro i h1 h2 h3
      rcases Nat.eq_or_lt_of_le h2 with h2e | h2l
      · subst h2e
        rw [hgpa]
        exact ⟨hf5, hf4⟩
      · exact hc6 i h1 h2l h3
  · intro hn
    obtain ⟨hn1, hn2⟩ := hcnone hn
    refine ⟨by rw [← hl4]; exact hn1, ?_⟩
    intro i h1 h2
    rcases Nat.eq_or_lt_of_le h2 with h2e | h2l
    · subst h2e
      rw [hgpa]
      exact ⟨hf5, hf4⟩
    · exact hn2 i h1 h2l

theorem progress_ch (fuel : Nat) :
    ∀ (s : Sched) (a : Nat),
      ChainShape s a → s.bodies.length = tlen s → tlen s - a < fuel →
      ∃ b, PostProg s (progress fuel s) a b := by
  induction fuel with
  | zero => intro s a _ _ hf; omega
  | succ fuel ih =>
    intro s a hcs hlen hf
    obtain ⟨hab, hnt, hlt, hmem⟩ := hcs
    rw [progress_succ, hnt]
    by_cases ha : a = tlen s
    · rw [if_pos ha]
      dsimp only
      refine ⟨a, le_refl a, hab, rfl, rfl, rfl, ?_, fun i _ => rfl, by simp,
        ?_, ?_, ?_⟩
      · refine ⟨hab, ?_, ?_, ?_⟩
        · show (none : Option Nat) = if a = tlen s then none else some a
          rw [if_pos ha]
        · show s.lastT = if a = tlen s then none else some (tlen s - 1)
          exact hlt
        · intro i h1 h2
          exact hmem i h1 h2
      · intro i h1 h2
        exact absurd h1 (by omega)
      · intro c hc
        exact Option.noConfusion hc
      · intro _
        exact ⟨ha, fun i h1 h2 => absurd h1 (by omega)⟩
    · rw [if_neg ha]
      dsimp only
      have halt : a < tlen s := lt_of_le_of_ne hab ha
      have hmema := hmem a halt (le_refl a)
      by_cases hsucc : a + 1 < tlen s
      · have hga : gT s a = { mkTask with next := some (a + 1) } := by
          rw [hmema, if_pos hsucc]
        cases hbk : getBody s a with
        | pend =>
          rw [progressAt_pend_succ s a _ hga hbk]
          refine ⟨a + 1, postProg_pend_lit s _ a (some (a + 1))
            ⟨hab, hnt, hlt, hmem⟩ halt rfl rfl ?_ ?_ rfl rfl rfl hbk⟩
          · rw [if_neg (by omega)]
          · rw [if_neg (by omega)]
            rw [hlt, if_neg ha]
        | instant o =>
          rw [progressAt_inst_succ s a _ o hga hbk]
          set s4 : Sched :=
            { s with
              tasks := s.tasks.set a
                (playEnd (runningTask (some (a + 1))) o).1,
              current := some a, nextT := some (a + 1),
              startOrder := s.startOrder ++ [a],
              errors := s.errors ++ (playEnd (runningTask (some (a + 1))) o).2 }
            with hs4
          have hl4 : tlen s4 = tlen s := by simp [hs4, tlen]
          have hcs4 : ChainShape s4 (a + 1) := by
            refine chainShape_step s4 s a _ ⟨hab, hnt, hlt, hmem⟩ halt rfl ?_ ?_
            · rw [if_neg (by omega)]
            · rw [if_neg (by omega)]
              show s.lastT = _
              rw [hlt, if_neg ha]
          obtain ⟨b, hpost⟩ := ih s4 (a + 1) hcs4
            (by rw [hl4]; exact hlen) (by omega)
          exact ⟨b, postProg_compose s s4 _ a b o (some (a + 1)) hpost halt
            rfl rfl rfl rfl⟩
      · have haeq : a + 1 = tlen s := by omega
        have hga : gT s a = { mkTask with next := none } := by
          rw [hmema, if_neg hsucc]
        cases hbk : getBody s a with
        | pend =>
          rw [progressAt_pend_last s a _ hga hbk]
          refine ⟨a + 1, postProg_pend_lit s _ a none
            ⟨hab, hnt, hlt, hmem⟩ halt rfl rfl ?_ ?_ rfl rfl rfl hbk⟩
          · rw [if_pos haeq]
          · rw [if_pos haeq]
        | instant o =>
          rw [progressAt_inst_last s a _ o hga hbk]
          set s4 : Sched :=
            { s with
              tasks := s.tasks.set a (playEnd (runningTask none) o).1,
              current := some a, nextT := none, lastT := none,
              startOrder := s.startOrder ++ [a],
              errors := s.errors ++ (playEnd (runningTask none) o).2 }
            with hs4
          have hl4 : tlen s4 = tlen s := by simp [hs4, tlen]
          have hcs4 : ChainShape s4 (a + 1) := by
            refine chainShape_step s4 s a _ ⟨hab, hnt, hlt, hmem⟩ halt rfl ?_ ?_
            · rw [if_pos haeq]
            · rw [if_pos haeq]
          obtain ⟨b, hpost⟩ := ih s4 (a + 1) hcs4
            (by rw [hl4]; exact hlen) (by omega)
          exact ⟨b, postProg_compose s s4 _ a b o none hpost halt
            rfl rfl rfl rfl⟩

/-! ### Shape of a submission -/

theorem length_append_one {α : Type} (l : List α) (x : α) :
    (l ++ [x]).length = l.length + 1 := by simp

theorem submit_chain (s : Sched) (bk : BodyKind) (a : Nat)
    (hcs : ChainShape s a) :
    ∃ s2 : Sched,
      submit s bk = (if s2.current = none then progress (tlen s2 + 1) s2 else s2) ∧
      s2.current = s.current ∧
      tlen s2 = tlen s + 1 ∧
      s2.bodies = s.bodies ++ [bk] ∧
      s2.startOrder = s.startOrder ∧
      s2.messages = s.messages ∧
      ChainShape s2 a ∧
      (∀ i, i < a → gT s2 i = gT s i) ∧
      (∀ i, i < tlen s →
        (gT s2 i).state = (gT s i).state ∧
        (gT s2 i).awaiting = (gT s i).awaiting ∧
        (gT s2 i).cancelled = (gT s i).cancelled ∧
        (gT s2 i).playSettled = (gT s i).playSettled ∧
        (gT s2 i).promise = (gT s i).promise ∧
        (gT s2 i).bodyRan = (gT s i).bodyRan ∧
        (gT s2 i).cancelListeners = (gT s i).cancelListeners) := by
  obtain ⟨hab, hnt, hlt, hmem⟩ := hcs
  by_cases ha : a = tlen s
  · -- empty queue: lastT is none, the new task becomes the whole chain
    have hl0 : s.lastT = none := by rw [hlt, if_pos ha]
    refine ⟨{ s with tasks := s.tasks ++ [mkTask], bodies := s.bodies ++ [bk], nextT := some (tlen s), lastT := some (tlen s) }, ?_, rfl, ?_, rfl, rfl, rfl, ?_, ?_, ?_⟩
    · simp only [submit]
      rw [show enqueueTask { s with tasks := s.tasks ++ [mkTask], bodies := s.bodies ++ [bk] } s.tasks.length = { s with tasks := s.tasks ++ [mkTask], bodies := s.bodies ++ [bk], nextT := some s.tasks.length, lastT := some s.tasks.length } from by unfold enqueueTask; rw [show ({ s with tasks := s.tasks ++ [mkTask], bodies := s.bodies ++ [bk] } : Sched).lastT = none from hl0]]
      rfl
    · simp only [tlen, length_append_one]
    · refine ⟨?_, ?_, ?_, ?_⟩
      · simp only [tlen, length_append_one] at *
        omega
      · show some (tlen s) = _
        rw [if_neg (by simp only [tlen, length_append_one] at *; omega)]
        rw [ha]
      · show some (tlen s) = _
        rw [if_neg (by simp only [tlen, length_append_one] at *; omega)]
        simp only [tlen, length_append_one]
        rw [Nat.add_sub_cancel]
      · intro i h1 h2
        simp only [tlen, length_append_one] at h1 ha h2 ⊢
        have hia : i = s.tasks.length := by omega
        subst hia
        show (s.tasks ++ [mkTask]).getD s.tasks.length mkTask = _
        rw [getD_append_len]
        rw [if_neg (by omega)]
        rfl
    · intro i hia
      show (s.tasks ++ [mkTask]).getD i mkTask = _
      rw [getD_append_lt _ _ _ _ (by simp only [tlen] at *; omega)]
      rfl
    · intro i hi
      simp only [tlen] at hi
      have hgi : gT { s with tasks := s.tasks ++ [mkTask], bodies := s.bodies ++ [bk], nextT := some (tlen s), lastT := some (tlen s) } i = gT s i := by
        show (s.tasks ++ [mkTask]).getD i mkTask = _
        rw [getD_append_lt _ _ _ _ hi]
        rfl
      rw [hgi]
      exact ⟨rfl, rfl, rfl, rfl, rfl, rfl, rfl⟩
  · -- non-empty queue: link the last queued task to the new one
    have han : a < tlen s := lt_of_le_of_ne hab ha
    have hl0 : s.lastT = some (tlen s - 1) := by rw [hlt, if_neg ha]
    have hgl : gT s (tlen s - 1) = { mkTask with next := none } := by
      rw [hmem (tlen s - 1) (by omega) (by omega), if_neg (by omega)]
    have hload : gT { s with tasks := s.tasks ++ [mkTask], bodies := s.bodies ++ [bk] } (tlen s - 1) = { mkTask with next := none } := by
      show (s.tasks ++ [mkTask]).getD (tlen s - 1) mkTask = _
      rw [getD_append_lt _ _ _ _ (by simp only [tlen] at *; omega)]
      exact hgl
    refine ⟨{ s with tasks := (s.tasks ++ [mkTask]).set (tlen s - 1) { mkTask with next := some (tlen s) }, bodies := s.bodies ++ [bk], lastT := some (tlen s) }, ?_, rfl, ?_, rfl, rfl, rfl, ?_, ?_, ?_⟩
    · simp only [submit]
      rw [show enqueueTask { s with tasks := s.tasks ++ [mkTask], bodies := s.bodies ++ [bk] } s.tasks.length = { setTask { s with tasks := s.tasks ++ [mkTask], bodies := s.bodies ++ [bk] } (tlen s - 1) { gT { s with tasks := s.tasks ++ [mkTask], bodies := s.bodies ++ [bk] } (tlen s - 1) with next := some s.tasks.length } with lastT := some s.tasks.length } from by unfold enqueueTask; rw [show ({ s with tasks := s.tasks ++ [mkTask], bodies := s.bodies ++ [bk] } : Sched).lastT = some (tlen s - 1) from hl0]]
      rw [hload]
      rfl
    · simp only [tlen, List.length_set, length_append_one]
    · refine ⟨?_, ?_, ?_, ?_⟩
      · simp only [tlen, List.length_set, length_append_one] at *
        omega
      · show s.nextT = _
        rw [hnt, if_neg ha,
          if_neg (by simp only [tlen, List.length_set, length_append_one] at *; omega)]
      · show some (tlen s) = _
        rw [if_neg (by simp only [tlen, List.length_set, length_append_one] at *; omega)]
        simp only [tlen, List.length_set, length_append_one]
        rw [Nat.add_sub_cancel]
      · intro i h1 h2
        simp only [tlen, List.length_set, length_append_one] at h1 ha han hab ⊢
        show ((s.tasks ++ [mkTask]).set (s.tasks.length - 1) { mkTask with next := some s.tasks.length }).getD i mkTask = _
        rcases lt_trichotomy i (s.tasks.length - 1) with hti | hti | hti
        · rw [getD_set_of_ne _ _ _ _ _ (by omega)]
          rw [getD_append_lt _ _ _ _ (by omega)]
          have hm2 := hmem i (by simp only [tlen]; omega) h2
          simp only [tlen] at hm2
          rw [show (s.tasks.getD i mkTask) = gT s i from rfl, hm2,
            if_pos (by omega)]
          rw [if_pos (by omega)]
        · subst hti
          rw [getD_set_self _ _ _ _ (by simp only [length_append_one]; omega)]
          rw [if_pos (by omega)]
          have he2 : s.tasks.length - 1 + 1 = s.tasks.length := by omega
          rw [he2]
        · have hieq : i = s.tasks.length := by omega
          subst hieq
          rw [getD_set_of_ne _ _ _ _ _ (by omega)]
          rw [getD_append_len]
          rw [if_neg (by omega)]
          rfl
    · intro i hia
      show ((s.tasks ++ [mkTask]).set (tlen s - 1) { mkTask with next := some (tlen s) }).getD i mkTask = _
      rw [getD_set_of_ne _ _ _ _ _ (by simp only [tlen] at *; omega)]
      rw [getD_append_lt _ _ _ _ (by simp only [tlen] at *; omega)]
      rfl
    · intro i hi
      rcases eq_or_ne i (tlen s - 1) with hieq | hine
      · subst hieq
        have h1 : gT { s with tasks := (s.tasks ++ [mkTask]).set (tlen s - 1) { mkTask with next := some (tlen s) }, bodies := s.bodies ++ [bk], lastT := some (tlen s) } (tlen s - 1) = { mkTask with next := some (tlen s) } := by
          show ((s.tasks ++ [mkTask]).set (tlen s - 1) _).getD _ mkTask = _
          rw [getD_set_self _ _ _ _ (by simp only [tlen, length_append_one] at *; omega)]
        rw [h1, hgl]
        exact ⟨rfl, rfl, rfl, rfl, rfl, rfl, rfl⟩
      · have h1 : gT { s with tasks := (s.tasks ++ [mkTask]).set (tlen s - 1) { mkTask with next := some (tlen s) }, bodies := s.bodies ++ [bk], lastT := some (tlen s) } i = gT s i := by
          show ((s.tasks ++ [mkTask]).set (tlen s - 1) _).getD _ mkTask = _
          rw [getD_set_of_ne _ _ _ _ _ hine]
          rw [getD_append_lt _ _ _ _ (by simp only [tlen] at *; omega)]
          rfl
        rw [h1]
        exact ⟨rfl, rfl, rfl, rfl, rfl, rfl, rfl⟩

/-! ### Preservation of the global invariant -/

theorem playEnd_fields (t : TaskRec) (o : BodyOutcome) :
    (playEnd t o).1.state = t.state ∧
    (playEnd t o).1.cancelled = t.cancelled ∧
    (playEnd t o).1.next = t.next ∧
    (playEnd t o).1.cancelListeners = t.cancelListeners ∧
    (playEnd t o).1.bodyRan = t.bodyRan ∧
    (playEnd t o).1.awaiting = false ∧
    (playEnd t o).1.playSettled = true := by
  cases o with
  | ret => exact ⟨rfl, rfl, rfl, rfl, rfl, rfl, rfl⟩
  | thrown v =>
    by_cases hv : v = JsValue.CANCELLED <;> simp [playEnd, hv]

theorem postInv (s4 p : Sched) (a b : Nat) (hpost : PostProg s4 p a b)
    (hAw : AwOK s4) (hWf : WaitFresh s4) :
    CurOK p ∧ AwOK p ∧ WaitFresh p := by
  obtain ⟨hab, hbt, hlp, hbod, hmsg, hcs, hunt, hso, hstart, hcsome, hcnone⟩ :=
    hpost
  obtain ⟨hb2, hnt2, hlt2, hmem2⟩ := hcs
  refine ⟨?_, ?_, ?_⟩
  · intro c hc
    obtain ⟨h1, h2, _, _, _, _⟩ := hcsome c hc
    exact ⟨by omega, (hstart c (by omega) h2).1⟩
  · intro i hi haw
    rcases lt_or_ge i a with hia | hia
    · rw [hunt i hia] at haw ⊢
      exact hAw i (by omega) haw
    · rcases lt_or_ge i b with hib | hib
      · exact (hstart i hib hia).1
      · rw [hmem2 i hi hib] at haw
        exact Bool.noConfusion haw
  · intro i hi hst
    rcases lt_or_ge i a with hia | hia
    · rw [hunt i hia] at hst ⊢
      exact hWf i (by omega) hst
    · rcases lt_or_ge i b with hib | hib
      · rw [(hstart i hib hia).1] at hst
        exact TaskState.noConfusion hst
      · rw [hmem2 i hi hib]
        exact ⟨rfl, rfl, rfl, rfl, rfl⟩

theorem GInv_init : GInv initSched := by
  refine ⟨rfl, ?_, ?_, ?_, 0, by simp [tlen, initSched], ?_⟩
  · intro c hc
    exact Option.noConfusion hc
  · intro i hi
    exact absurd hi (by simp [tlen, initSched])
  · intro i hi
    exact absurd hi (by simp [tlen, initSched])
  · exact ⟨by simp [tlen, initSched], rfl, rfl,
      fun i h1 h2 => absurd h1 (by simp [tlen, initSched])⟩

theorem GInv_step (s : Sched) (c : Cmd) (hg : GInv s) : GInv (stepCmd s c) := by
  obtain ⟨hblen, hCur, hAw, hWf, a, haub, hcs⟩ := hg
  have habound : a ≤ tlen s := hcs.1
  cases c with
  | submit bk =>
    obtain ⟨s2, heq, hcur2, hlen2, hbod2, hso2, hmsg2, hcs2, hunt2, hfld2⟩ :=
      submit_chain s bk a hcs
    have hblen2 : s2.bodies.length = tlen s2 := by
      rw [hbod2, hlen2, length_append_one, hblen]
    have hCur2 : CurOK s2 := by
      intro cc hcc
      rw [hcur2] at hcc
      obtain ⟨h1, h2⟩ := hCur cc hcc
      exact ⟨by omega, by rw [(hfld2 cc h1).1]; exact h2⟩
    have hAw2 : AwOK s2 := by
      intro i hi haw
      rcases lt_or_ge i (tlen s) with hilt | hige
      · obtain ⟨hst, haw2, -⟩ := hfld2 i hilt
        rw [haw2] at haw
        rw [hst]
        exact hAw i hilt haw
      · have hieq : i = tlen s := by omega
        subst hieq
        obtain ⟨-, -, -, hmem2s⟩ := hcs2
        rw [hmem2s (tlen s) (by omega) (by omega)] at haw
        exact Bool.noConfusion haw
    have hWf2 : WaitFresh s2 := by
      intro i hi hst
      rcases lt_or_ge i (tlen s) with hilt | hige
      · obtain ⟨h1, h2, h3, h4, h5, h6, -⟩ := hfld2 i hilt
        rw [h1] at hst
        obtain ⟨w1, w2, w3, w4, w5⟩ := hWf i hilt hst
        exact ⟨by rw [h5, w1], by rw [h6, w2], by rw [h3, w3],
          by rw [h2, w4], by rw [h4, w5]⟩
      · have hieq : i = tlen s := by omega
        subst hieq
        obtain ⟨-, -, -, hmem2s⟩ := hcs2
        rw [hmem2s (tlen s) (by omega) (by omega)]
        exact ⟨rfl, rfl, rfl, rfl, rfl⟩
    rw [show stepCmd s (Cmd.submit bk) = submit s bk from rfl, heq]
    split
    · obtain ⟨b, hpost⟩ := progress_ch (tlen s2 + 1) s2 a hcs2 hblen2 (by omega)
      obtain ⟨pc, pa, pw⟩ := postInv s2 _ a b hpost hAw2 hWf2
      obtain ⟨q1, q2, q3, q4, q5, q6, -⟩ := hpost
      exact ⟨by rw [q4, hblen2, q3], pc, pa, pw, b, by omega, q6⟩
    · exact ⟨hblen2, hCur2, hAw2, hWf2, a, by omega, hcs2⟩
  | finish i o =>
    simp only [stepCmd, finish]
    split
    · rename_i haw
      have hilt : i < tlen s := by
        by_contra hge
        rw [show gT s i = mkTask from by
          simp only [gT]
          exact getD_oob _ _ _ (by simp only [tlen] at hge; omega)] at haw
        exact absurd haw (by decide)
      have hst : (gT s i).state = TaskState.STARTED := hAw i hilt haw
      have hina : i < a ∨ tlen s ≤ i ∨ ¬ a ≤ i := by
        by_contra hcon
        push_neg at hcon
        obtain ⟨h1, h2, h3⟩ := hcon
        rw [hcs.2.2.2 i h2 h3] at hst
        exact TaskState.noConfusion hst
      have hine : ∀ j, a ≤ j → j < tlen s → j ≠ i := by
        intro j hj1 hj2 hji
        subst hji
        rcases hina with h | h | h <;> omega
      obtain ⟨pf1, pf2, pf3, pf4, pf5, pf6, pf7⟩ := playEnd_fields (gT s i) o
      have hgF : ∀ j, j ≠ i →
          gT { setTask s i (playEnd (gT s i) o).1 with
            errors := s.errors ++ (playEnd (gT s i) o).2 } j = gT s j := by
        intro j hj
        show (s.tasks.set i (playEnd (gT s i) o).1).getD j mkTask = _
        rw [getD_set_of_ne _ _ _ _ _ hj]
        rfl
      have hgFi : gT { setTask s i (playEnd (gT s i) o).1 with
          errors := s.errors ++ (playEnd (gT s i) o).2 } i
          = (playEnd (gT s i) o).1 := by
        show (s.tasks.set i (playEnd (gT s i) o).1).getD i mkTask = _
        exact getD_set_self _ _ _ _ hilt
      have hlF : tlen { setTask s i (playEnd (gT s i) o).1 with
          errors := s.errors ++ (playEnd (gT s i) o).2 } = tlen s := by
        simp [tlen, setTask]

      obtain ⟨hcb, hcnt, hclt, hcmem⟩ := hcs
      have hcsF : ChainShape { setTask s i (playEnd (gT s i) o).1 with
          errors := s.errors ++ (playEnd (gT s i) o).2 } a := by
        refine ⟨by rw [hlF]; exact habound, by rw [hlF]; exact hcnt,
          by rw [hlF]; exact hclt, ?_⟩
        intro j h1 h2
        rw [hlF] at h1 ⊢
        rw [hgF j (hine j h2 h1)]
        exact hcmem j h1 h2
      have hAwF : AwOK { setTask s i (playEnd (gT s i) o).1 with
          errors := s.errors ++ (playEnd (gT s i) o).2 } := by
        intro j hj haj
        rcases eq_or_ne j i with hje | hjn
        · subst hje
          rw [hgFi] at haj ⊢
          rw [pf1]
          exact hst
        · rw [hgF j hjn] at haj ⊢
          rw [hlF] at hj
          exact hAw j hj haj
      have hWfF : WaitFresh { setTask s i (playEnd (gT s i) o).1 with
          errors := s.errors ++ (playEnd (gT s i) o).2 } := by
        intro j hj hsj
        rcases eq_or_ne j i with hje | hjn
        · subst hje
          rw [hgFi] at hsj
          rw [pf1, hst] at hsj
          exact TaskState.noConfusion hsj
        · rw [hgF j hjn] at hsj ⊢
          rw [hlF] at hj
          exact hWf j hj hsj
      obtain ⟨b, hpost⟩ := progress_ch
        (({ setTask s i (playEnd (gT s i) o).1 with errors := s.errors ++ (playEnd (gT s i) o).2 } : Sched).tasks.length + 1) _ a hcsF
        (by rw [hlF]; exact hblen)
        (by simp only [tlen, setTask, List.length_set]; omega)
      obtain ⟨pc, pa, pw⟩ := postInv _ _ a b hpost hAwF hWfF
      obtain ⟨q1, q2, q3, q4, q5, q6, -⟩ := hpost
      refine ⟨?_, pc, pa, pw, b, ?_, q6⟩
      · rw [q4, q3]
        show s.bodies.length = _
        rw [hlF]
        exact hblen
      · rw [q3, hlF]
        rw [hlF] at q2
        omega
    · exact ⟨hblen, hCur, hAw, hWf, a, haub, hcs⟩
  | cancelAll =>
    simp only [stepCmd, cancelAll]
    split
    · exact ⟨hblen, hCur, hAw, hWf, a, haub, hcs⟩
    · rename_i i hci
      obtain ⟨hilt, hist⟩ := hCur i hci
      obtain ⟨cp1, cp2, cp3, cp4, cp5, cp6⟩ :=
        cancelT_preserves (fun _ => false) (gT s i)
      refine ⟨?_, ?_, ?_, ?_, ?_⟩
      · show s.bodies.length = (s.tasks.set i _).length
        rw [List.length_set]
        exact hblen
      · intro cc hcc
        exact Option.noConfusion hcc
      · intro j hj haj
        have hj2 : j < tlen s := by
          simp only [tlen, setTask, List.length_set] at hj
          exact hj
        change (gT (setTask s i (cancelT (fun _ => false) (gT s i)).1) j).awaiting
          = true at haj
        change (gT (setTask s i (cancelT (fun _ => false) (gT s i)).1) j).state
          = TaskState.STARTED
        rcases eq_or_ne j i with hje | hjn
        · subst hje
          rw [gT_set_self _ _ _ hilt] at haj ⊢
          rw [cp2]
          rw [cp5] at haj
          exact hAw j hj2 haj
        · rw [gT_set_ne _ _ _ _ hjn] at haj ⊢
          exact hAw j hj2 haj
      · intro j hj hsj
        have hj2 : j < tlen s := by
          simp only [tlen, setTask, List.length_set] at hj
          exact hj
        change (gT (setTask s i (cancelT (fun _ => false) (gT s i)).1) j).state
          = TaskState.WAIT at hsj
        rcases eq_or_ne j i with hje | hjn
        · subst hje
          rw [gT_set_self _ _ _ hilt, cp2, hist] at hsj
          exact TaskState.noConfusion hsj
        · rw [gT_set_ne _ _ _ _ hjn] at hsj
          obtain ⟨w1, w2, w3, w4, w5⟩ := hWf j hj2 hsj
          change (gT (setTask s i (cancelT (fun _ => false) (gT s i)).1) j).promise = JsPromise.pending ∧ (gT (setTask s i (cancelT (fun _ => false) (gT s i)).1) j).bodyRan = false ∧ (gT (setTask s i (cancelT (fun _ => false) (gT s i)).1) j).cancelled = false ∧ (gT (setTask s i (cancelT (fun _ => false) (gT s i)).1) j).awaiting = false ∧ (gT (setTask s i (cancelT (fun _ => false) (gT s i)).1) j).playSettled = false
          rw [gT_set_ne _ _ _ _ hjn]
          exact ⟨w1, w2, w3, w4, w5⟩
      · refine ⟨tlen s, ?_, ?_, ?_, ?_, ?_⟩
        · simp only [tlen, setTask, List.length_set]
          omega
        · show tlen s ≤ _
          simp only [tlen, setTask, List.length_set]
          omega
        · split
          · rfl
          · rename_i hcon
            simp only [tlen, setTask, List.length_set] at hcon
            exact absurd True.intro hcon
        · split
          · rfl
          · rename_i hcon
            simp only [tlen, setTask, List.length_set] at hcon
            exact absurd True.intro hcon
        · intro j h1 h2
          simp only [tlen, setTask, List.length_set] at h1 h2
          exact absurd h1 (by omega)

theorem GInv_run (cmds : List Cmd) :
    ∀ s : Sched, GInv s → GInv (cmds.foldl stepCmd s) := by
  induction cmds with
  | nil => exact fun s hs => hs
  | cons c cs ih => exact fun s hs => ih (stepCmd s c) (GInv_step s c hs)

/-- A task that never started and is no longer on the pending chain is
untouched by any further command. -/
theorem frozen_step (s : Sched) (c : Cmd) (a i : Nat)
    (hg : GInv s) (hcs : ChainShape s a) (hia : i < a)
    (hwait : (gT s i).state = TaskState.WAIT) :
    gT (stepCmd s c) i = gT s i ∧
    ∃ a2, ChainShape (stepCmd s c) a2 ∧ i < a2 := by
  obtain ⟨hblen, hCur, hAw, hWf, -⟩ := hg
  have habound : a ≤ tlen s := hcs.1
  cases c with
  | submit bk =>
    obtain ⟨s2, heq, hcur2, hlen2, hbod2, hso2, hmsg2, hcs2, hunt2, hfld2⟩ :=
      submit_chain s bk a hcs
    have hblen2 : s2.bodies.length = tlen s2 := by
      rw [hbod2, hlen2, length_append_one, hblen]
    rw [show stepCmd s (Cmd.submit bk) = submit s bk from rfl, heq]
    split
    · obtain ⟨b, hpost⟩ := progress_ch (tlen s2 + 1) s2 a hcs2 hblen2 (by omega)
      obtain ⟨q1, q2, q3, q4, q5, q6, q7, -⟩ := hpost
      refine ⟨?_, b, q6, by omega⟩
      rw [q7 i hia]
      exact hunt2 i hia
    · exact ⟨hunt2 i hia, a, hcs2, hia⟩
  | finish j o =>
    simp only [stepCmd, finish]
    split
    · rename_i haw
      have hjlt : j < tlen s := by
        by_contra hge
        rw [show gT s j = mkTask from by
          simp only [gT]
          exact getD_oob _ _ _ (by simp only [tlen] at hge; omega)] at haw
        exact absurd haw (by decide)
      have hjst : (gT s j).state = TaskState.STARTED := hAw j hjlt haw
      have hji : j ≠ i := by
        intro hjeq
        rw [hjeq, hwait] at hjst
        exact TaskState.noConfusion hjst
      have hine : ∀ k, a ≤ k → k < tlen s → k ≠ j := by
        intro k hk1 hk2 hkj
        subst hkj
        rw [hcs.2.2.2 k hk2 hk1] at hjst
        exact TaskState.noConfusion hjst
      have hgF : ∀ k, k ≠ j →
          gT { setTask s j (playEnd (gT s j) o).1 with
            errors := s.errors ++ (playEnd (gT s j) o).2 } k = gT s k := by
        intro k hk
        show (s.tasks.set j (playEnd (gT s j) o).1).getD k mkTask = _
        rw [getD_set_of_ne _ _ _ _ _ hk]
        rfl
      have hlF : tlen { setTask s j (playEnd (gT s j) o).1 with
          errors := s.errors ++ (playEnd (gT s j) o).2 } = tlen s := by
        simp [tlen, setTask]
      obtain ⟨hcb, hcnt, hclt, hcmem⟩ := hcs
      have hcsF : ChainShape { setTask s j (playEnd (gT s j) o).1 with
          errors := s.errors ++ (playEnd (gT s j) o).2 } a := by
        refine ⟨by rw [hlF]; exact habound, by rw [hlF]; exact hcnt,
          by rw [hlF]; exact hclt, ?_⟩
        intro k h1 h2
        rw [hlF] at h1 ⊢
        rw [hgF k (hine k h2 h1)]
        exact hcmem k h1 h2
      obtain ⟨b, hpost⟩ := progress_ch
        (({ setTask s j (playEnd (gT s j) o).1 with errors := s.errors ++ (playEnd (gT s j) o).2 } : Sched).tasks.length + 1) _ a hcsF
        (by rw [hlF]; exact hblen)
        (by simp only [tlen, setTask, List.length_set]; omega)
      obtain ⟨q1, q2, q3, q4, q5, q6, q7, -⟩ := hpost
      refine ⟨?_, b, q6, by omega⟩
      rw [q7 i hia]
      exact hgF i (fun h => hji (h ▸ rfl))
    · exact ⟨rfl, a, hcs, hia⟩
  | cancelAll =>
    simp only [stepCmd, cancelAll]
    split
    · exact ⟨rfl, a, hcs, hia⟩
    · rename_i j hcj
      obtain ⟨hjl, hjst⟩ := hCur j hcj
      have hji : j ≠ i := by
        intro hjeq
        rw [hjeq, hwait] at hjst
        exact TaskState.noConfusion hjst
      refine ⟨?_, tlen s, ⟨?_, ?_, ?_, ?_⟩, by omega⟩
      · change gT (setTask s j (cancelT (fun _ => false) (gT s j)).1) i = gT s i
        exact gT_set_ne _ _ _ _ (fun h => hji (h ▸ rfl))
      · show tlen s ≤ _
        simp only [tlen, setTask, List.length_set]
        omega
      · split
        · rfl
        · rename_i hcon
          simp only [tlen, setTask, List.length_set] at hcon
          exact absurd True.intro hcon
      · split
        · rfl
        · rename_i hcon
          simp only [tlen, setTask, List.length_set] at hcon
          exact absurd True.intro hcon
      · intro k h1 h2
        simp only [tlen, setTask, List.length_set] at h1 h2
        exact absurd h1 (by omega)

theorem frozen_run (cmds : List Cmd) :
    ∀ (s : Sched) (a i : Nat), GInv s → ChainShape s a → i < a →
      (gT s i).state = TaskState.WAIT →
      gT (cmds.foldl stepCmd s) i = gT s i := by
  induction cmds with
  | nil => intro s a i _ _ _ _; rfl
  | cons c cs ih =>
    intro s a i hg hcs hia hw
    obtain ⟨he, a2, hcs2, hia2⟩ := frozen_step s c a i hg hcs hia hw
    calc gT ((c :: cs).foldl stepCmd s) i
        = gT (cs.foldl stepCmd (stepCmd s c)) i := rfl
      _ = gT (stepCmd s c) i :=
          ih (stepCmd s c) a2 i (GInv_step s c hg) hcs2 hia2
            (by rw [he]; exact hw)
      _ = gT s i := he

/-! ### The cancelAll walk -/

theorem cancelT_sets (throws : Nat → Bool) (t : TaskRec) :
    (cancelT throws t).1.cancelled = true := by
  unfold cancelT
  by_cases hc : t.cancelled
  · simp [hc]
  · simp only [hc, Bool.false_eq_true, if_false]
    unfold fireCancel
    dsimp only
    split <;> rfl

theorem walkChain_none (s : Sched) : ∀ fuel, walkChain fuel s none = [] := by
  intro fuel
  cases fuel <;> rfl

theorem walkChain_congr (s u : Sched)
    (h : ∀ j, (gT u j).next = (gT s j).next) :
    ∀ fuel x, walkChain fuel u x = walkChain fuel s x := by
  intro fuel
  induction fuel with
  | zero => intro x; rfl
  | succ fuel ih =>
    intro x
    cases x with
    | none => rfl
    | some i =>
      show i :: walkChain fuel u (gT u i).next
        = i :: walkChain fuel s (gT s i).next
      rw [h i, ih]

theorem walkChain_range (s : Sched) (a : Nat) (hcs : ChainShape s a) :
    ∀ fuel i, a ≤ i → i < tlen s → tlen s - i ≤ fuel →
      walkChain fuel s (some i) = List.range' i (tlen s - i) := by
  intro fuel
  induction fuel with
  | zero => intro i h1 h2 h3; omega
  | succ fuel ih =>
    intro i h1 h2 h3
    show i :: walkChain fuel s (gT s i).next = _
    rw [hcs.2.2.2 i h2 h1]
    by_cases hsucc : i + 1 < tlen s
    · show i :: walkChain fuel s
        (if i + 1 < tlen s then some (i + 1) else none) = _
      rw [if_pos hsucc]
      rw [ih (i + 1) (by omega) hsucc (by omega)]
      have hminus : tlen s - i = (tlen s - (i + 1)) + 1 := by omega
      rw [hminus, List.range'_succ]
    · show i :: walkChain fuel s
        (if i + 1 < tlen s then some (i + 1) else none) = _
      rw [if_neg hsucc, walkChain_none]
      have hminus : tlen s - i = 1 := by omega
      rw [hminus]
      rfl

/-- Field projections of `cancelAll` on a busy lane. -/
theorem cancelAll_tasks (s : Sched) (c : Nat) (hc : s.current = some c) :
    (cancelAll s).tasks = (setTask s c (cancelT (fun _ => false) (gT s c)).1).tasks := by
  unfold cancelAll
  rw [hc]

/-- `cancelAll` on a busy lane clears `nextTask`. -/
theorem cancelAll_nextT (s : Sched) (c : Nat) (hc : s.current = some c) :
    (cancelAll s).nextT = none := by
  unfold cancelAll
  rw [hc]

/-- `cancelAll` on a busy lane clears `lastTask`. -/
theorem cancelAll_lastT (s : Sched) (c : Nat) (hc : s.current = some c) :
    (cancelAll s).lastT = none := by
  unfold cancelAll
  rw [hc]

/-- C4 amended: `cancelAll` on an idle lane is a no-op.  On a busy lane it
cancels the running task, reports it, then reports exactly the tasks
reachable through the running task's `next` link — which, when that link
does not point at the pending queue, misses pending tasks — clears the
queue pointers (the queued tasks never run, are never reported as started,
and never have `cancel` invoked on them, in this run or in any
continuation), and sets `current = none` immediately, not after the
running task's play settles. -/
theorem C4_amended_thm (s : Sched) (a : Nat) (hg : GInv s)
    (hcs : ChainShape s a) :
    (s.current = none → cancelAll s = s) ∧
    (∀ c, s.current = some c →
      (cancelAll s).current = none ∧
      (cancelAll s).nextT = none ∧
      (cancelAll s).lastT = none ∧
      (gT (cancelAll s) c).cancelled = true ∧
      (gT (cancelAll s) c).playSettled = (gT s c).playSettled ∧
      (cancelAll s).messages
        = s.messages ++ c :: walkChain (tlen s) s (gT s c).next ∧
      ((gT s c).next = some a → a < tlen s →
        (cancelAll s).messages
          = s.messages ++ c :: List.range' a (tlen s - a)) ∧
      (∀ i, a ≤ i → i < tlen s →
        (gT (cancelAll s) i).bodyRan = false ∧
        (gT (cancelAll s) i).cancelled = false ∧
        (gT (cancelAll s) i).state = TaskState.WAIT) ∧
      (∀ i (cmds : List Cmd), i < tlen s → (gT s i).state = TaskState.WAIT →
        (gT (cmds.foldl stepCmd (cancelAll s)) i).state = TaskState.WAIT ∧
        (gT (cmds.foldl stepCmd (cancelAll s)) i).bodyRan = false ∧
        (gT (cmds.foldl stepCmd (cancelAll s)) i).cancelled = false ∧
        (gT (cmds.foldl stepCmd (cancelAll s)) i).promise = JsPromise.pending)) := by
  have hgg := hg
  obtain ⟨hblen, hCur, hAw, hWf, -⟩ := hg
  constructor
  · intro h
    unfold cancelAll
    rw [h]
  · intro c hc
    obtain ⟨hclt, hcst⟩ := hCur c hc
    obtain ⟨cp1, cp2, cp3, cp4, cp5, cp6⟩ :=
      cancelT_preserves (fun _ => false) (gT s c)
    have hgc : ∀ j, j ≠ c →
        gT (setTask s c (cancelT (fun _ => false) (gT s c)).1) j = gT s j :=
      fun j hj => gT_set_ne _ _ _ _ hj
    have hgcc : gT (setTask s c (cancelT (fun _ => false) (gT s c)).1) c
        = (cancelT (fun _ => false) (gT s c)).1 := gT_set_self _ _ _ hclt
    have hnexts : ∀ j,
        (gT (setTask s c (cancelT (fun _ => false) (gT s c)).1) j).next
          = (gT s j).next := by
      intro j
      rcases eq_or_ne j c with hje | hjn
      · subst hje
        rw [hgcc, cp4]
      · rw [hgc j hjn]
    have hmem : ∀ i, a ≤ i → i < tlen s → i ≠ c := by
      intro i h1 h2 hic
      subst hic
      rw [hcs.2.2.2 i h2 h1] at hcst
      exact TaskState.noConfusion hcst
    refine ⟨?_, ?_, ?_, ?_, ?_, ?_, ?_, ?_, ?_⟩
    · unfold cancelAll
      rw [hc]
    · unfold cancelAll
      rw [hc]
    · unfold cancelAll
      rw [hc]
    · unfold cancelAll
      rw [hc]
      show (gT (setTask s c (cancelT (fun _ => false) (gT s c)).1) c).cancelled
        = true
      rw [hgcc]
      exact cancelT_sets _ _
    · unfold cancelAll
      rw [hc]
      show (gT (setTask s c (cancelT (fun _ => false) (gT s c)).1) c).playSettled
        = _
      rw [hgcc]
      exact cp3
    · unfold cancelAll
      rw [hc]
      show s.messages ++ [c] ++ walkChain _ _ _ = _
      rw [show (tlen { setTask s c (cancelT (fun _ => false) (gT s c)).1 with messages := (setTask s c (cancelT (fun _ => false) (gT s c)).1).messages ++ [c], current := none } : Nat) = tlen s from by simp [tlen, setTask]]
      have hnexts2 : ∀ j, (gT ({ setTask s c (cancelT (fun _ => false) (gT s c)).1 with messages := (setTask s c (cancelT (fun _ => false) (gT s c)).1).messages ++ [c], current := none } : Sched) j).next = (gT s j).next := hnexts
      rw [walkChain_congr s _ hnexts2]
      rw [show (gT ({ setTask s c (cancelT (fun _ => false) (gT s c)).1 with messages := (setTask s c (cancelT (fun _ => false) (gT s c)).1).messages ++ [c], current := none } : Sched) c).next = (gT s c).next from hnexts c]
      simp
    · intro hnext halt
      unfold cancelAll
      rw [hc]
      show s.messages ++ [c] ++ walkChain _ _ _ = _
      rw [show (tlen { setTask s c (cancelT (fun _ => false) (gT s c)).1 with messages := (setTask s c (cancelT (fun _ => false) (gT s c)).1).messages ++ [c], current := none } : Nat) = tlen s from by simp [tlen, setTask]]
      have hnexts2 : ∀ j, (gT ({ setTask s c (cancelT (fun _ => false) (gT s c)).1 with messages := (setTask s c (cancelT (fun _ => false) (gT s c)).1).messages ++ [c], current := none } : Sched) j).next = (gT s j).next := hnexts
      rw [walkChain_congr s _ hnexts2]
      rw [show (gT ({ setTask s c (cancelT (fun _ => false) (gT s c)).1 with messages := (setTask s c (cancelT (fun _ => false) (gT s c)).1).messages ++ [c], current := none } : Sched) c).next = (gT s c).next from hnexts c]
      rw [hnext]
      rw [walkChain_range s a hcs (tlen s) a (le_refl a) halt (by omega)]
      simp
    · intro i h1 h2
      have hic := hmem i h1 h2
      unfold cancelAll
      rw [hc]
      change (gT (setTask s c (cancelT (fun _ => false) (gT s c)).1) i).bodyRan = false ∧ (gT (setTask s c (cancelT (fun _ => false) (gT s c)).1) i).cancelled = false ∧ (gT (setTask s c (cancelT (fun _ => false) (gT s c)).1) i).state = TaskState.WAIT
      rw [hgc i hic]
      rw [hcs.2.2.2 i h2 h1]
      exact ⟨rfl, rfl, rfl⟩
    · intro i cmds hilt hwi
      have hic : i ≠ c := by
        intro hie
        subst hie
        rw [hwi] at hcst
        exact TaskState.noConfusion hcst
      have hall : GInv (cancelAll s) := GInv_step s Cmd.cancelAll hgg
      have hgTC : gT (cancelAll s) i = gT s i := by
        unfold cancelAll
        rw [hc]
        change gT (setTask s c (cancelT (fun _ => false) (gT s c)).1) i = gT s i
        exact hgc i hic
      have hlC : tlen (cancelAll s) = tlen s := by
        show (cancelAll s).tasks.length = _
        rw [cancelAll_tasks s c hc]
        simp [setTask, tlen]
      have hcsC : ChainShape (cancelAll s) (tlen s) := by
        refine ⟨hlC.ge, ?_, ?_, ?_⟩
        · rw [cancelAll_nextT s c hc, hlC]
          simp
        · rw [cancelAll_lastT s c hc, hlC]
          simp
        · intro k k1 k2
          rw [hlC] at k1
          exact absurd k1 (by omega)
      have hfr := frozen_run cmds (cancelAll s) (tlen s) i hall hcsC hilt
        (by rw [hgTC]; exact hwi)
      obtain ⟨w1, w2, w3, w4, w5⟩ := hWf i hilt hwi
      refine ⟨?_, ?_, ?_, ?_⟩ <;> rw [hfr, hgTC]
      · exact hwi
      · exact w2
      · exact w3
      · exact w1

/-- C10: the completion signal of every task on a lane, after any sequence
of submissions, body settlements and cancellations, is either still
pending or fulfilled — it is never rejected.  In particular an unhandled
error thrown by a body (which is logged and swallowed) never surfaces as a
rejection of the completion signal. -/
theorem C10_completion_never_rejects (cmds : List Cmd) (i : Nat) :
    (gT (run cmds) i).promise = JsPromise.pending ∨
    (gT (run cmds) i).promise = JsPromise.fulfilled :=
  promOK_run cmds initSched (fun _ => Or.inl rfl) i

/-- Witness for the amended C4 theorem: on the concrete lane with a running
never-settling task and two queued tasks, the invariant and chain shape
hold, and `cancelAll` nulls `current` and both queue pointers and cancels
the running task. -/
theorem C4_amended_witness :
    GInv c4pre ∧ ChainShape c4pre 1 ∧
    (cancelAll c4pre).current = none ∧
    (cancelAll c4pre).nextT = none ∧
    (cancelAll c4pre).lastT = none ∧
    (gT (cancelAll c4pre) 0).cancelled = true := by
  have e3 : tlen c4pre = 3 := by decide
  have hcs : ChainShape c4pre 1 := by
    refine ⟨by decide, by decide, by decide, ?_⟩
    intro i h1 h2
    rw [e3] at h1
    interval_cases i <;> decide
  have hg : GInv c4pre := by
    refine ⟨by decide, ?_, ?_, ?_, 1, by decide, hcs⟩
    · intro c hcC
      have h0 : c4pre.current = some 0 := by decide
      rw [h0] at hcC
      injection hcC with h
      subst h
      exact ⟨by decide, by decide⟩
    · intro i hi
      rw [e3] at hi
      interval_cases i <;> decide
    · intro i hi
      rw [e3] at hi
      interval_cases i <;> decide
  have h := (C4_amended_thm c4pre 1 hg hcs).2 0 (by decide)
  exact ⟨hg, hcs, h.1, h.2.1, h.2.2.1, h.2.2.2.1⟩


/-- C2 amended: the completion signal resolves when the body finishes
normally and also when it terminates with an unhandled error other than
the `Cancelled` signal (the error is reported to the error sink and then
swallowed); when the body terminates by throwing the `Cancelled` signal,
`play` settles without resolving and the completion signal stays pending
forever; a queued task discarded by `cancelAll` likewise keeps a forever
pending completion signal in every continuation of the run.  The signal
never rejects. -/
theorem C2_amended_thm (t : TaskRec) (o : BodyOutcome)
    (hst : t.state = TaskState.WAIT) (hcn : t.cancelled = false)
    (hpr : t.promise = JsPromise.pending) :
    (∃ r, playRun t o = Except.ok r ∧ r.1.playSettled = true ∧
      (∀ v, r.1.promise ≠ JsPromise.rejected v) ∧
      (o = BodyOutcome.ret →
        r.1.promise = JsPromise.fulfilled ∧ r.2 = []) ∧
      (o = BodyOutcome.thrown JsValue.CANCELLED →
        r.1.promise = JsPromise.pending ∧ r.2 = []) ∧
      (∀ v, o = BodyOutcome.thrown v → v ≠ JsValue.CANCELLED →
        r.1.promise = JsPromise.fulfilled ∧ r.2 = [v])) ∧
    (∀ (s : Sched) (b i : Nat) (cmds : List Cmd),
      GInv s → ChainShape s b → i < b →
      (gT s i).state = TaskState.WAIT →
      (gT (cmds.foldl stepCmd s) i).promise = JsPromise.pending) := by
  refine ⟨?_, ?_⟩
  swap
  · intro s b i cmds hg hcsb hib hwi
    have hfr := frozen_run cmds s b i hg hcsb hib hwi
    rw [hfr]
    exact (hg.2.2.2.1 i (lt_of_lt_of_le hib hcsb.1) hwi).1
  have hb0 : playBegin t = Except.ok { t with state := TaskState.STARTED, bodyRan := true, awaiting := true } := by
    unfold playBegin
    rw [hst, if_neg (by decide)]
    show (if ({ t with state := TaskState.STARTED} : TaskRec).cancelled = true then _ else _) = _
    rw [show ({ t with state := TaskState.STARTED} : TaskRec).cancelled = t.cancelled from rfl, hcn]
    rfl
  have hb : playRun t o = Except.ok (playEnd { t with state := TaskState.STARTED, bodyRan := true, awaiting := true } o) := by
    unfold playRun
    rw [hb0]
    rfl
  obtain ⟨h1, h2, h3, h4, h5⟩ := playEnd_cases { t with state := TaskState.STARTED, bodyRan := true, awaiting := true } o
  refine ⟨_, hb, h1, ?_, ?_, ?_, ?_⟩
  · intro v hcon
    rcases h2 with hp | hp <;> rw [hp] at hcon
    · rw [show ({ t with state := TaskState.STARTED, bodyRan := true, awaiting := true } : TaskRec).promise = t.promise from rfl, hpr] at hcon
      exact JsPromise.noConfusion hcon
    · rw [show ({ t with state := TaskState.STARTED, bodyRan := true, awaiting := true } : TaskRec).promise = t.promise from rfl, hpr] at hcon
      exact JsPromise.noConfusion hcon
  · intro h
    obtain ⟨hq, he⟩ := h3 h
    refine ⟨?_, he⟩
    rw [hq, show ({ t with state := TaskState.STARTED, bodyRan := true, awaiting := true } : TaskRec).promise = t.promise from rfl, hpr]
    rfl
  · intro h
    obtain ⟨hq, he⟩ := h4 h
    refine ⟨?_, he⟩
    rw [hq, show ({ t with state := TaskState.STARTED, bodyRan := true, awaiting := true } : TaskRec).promise = t.promise from rfl, hpr]
  · intro v hv hne
    obtain ⟨hq, he⟩ := h5 v hv hne
    refine ⟨?_, he⟩
    rw [hq, show ({ t with state := TaskState.STARTED, bodyRan := true, awaiting := true } : TaskRec).promise = t.promise from rfl, hpr]
    rfl

/-- Witness: on a fresh task whose body throws the `Cancelled` signal,
`play` settles yet the completion promise stays pending. -/
theorem C2_amended_witness :
    (mkTask.state = TaskState.WAIT ∧ mkTask.cancelled = false ∧
     mkTask.promise = JsPromise.pending) ∧
    ∃ r, playRun mkTask (BodyOutcome.thrown JsValue.CANCELLED) = Except.ok r ∧
      r.1.playSettled = true ∧ r.1.promise = JsPromise.pending ∧ r.2 = [] := by
  refine ⟨⟨rfl, rfl, rfl⟩, ?_⟩
  obtain ⟨⟨r, h1, h2, h3, h4, h5, h6⟩, -⟩ :=
    C2_amended_thm mkTask (BodyOutcome.thrown JsValue.CANCELLED) rfl rfl rfl
  obtain ⟨hp, he⟩ := h5 rfl
  exact ⟨r, h1, h2, hp, he⟩

/-! ### Runs that never cancel: strict FIFO, single-flight -/

theorem range0_glue (a k : Nat) :
    List.range' 0 a ++ List.range' a k = List.range' 0 (a + k) := by
  have h := List.range'_append 0 a k 1
  rw [Nat.add_comm a k]
  simpa using h

theorem NCInv_init : NCInv initSched := by
  refine ⟨rfl, 0, ⟨by simp [tlen, initSched], rfl, rfl,
    fun i h1 h2 => absurd h1 (by simp [tlen, initSched])⟩, ?_, rfl, ?_, ?_⟩
  · intro i hi
    exact absurd hi (by omega)
  · intro c hc
    exact Option.noConfusion hc
  · intro hn
    exact ⟨by simp [tlen, initSched], fun i hi => absurd hi (by omega)⟩

theorem NC_step (s : Sched) (c : Cmd) (hnc : c ≠ Cmd.cancelAll)
    (h : NCInv s) : NCInv (stepCmd s c) := by
  obtain ⟨hblen, a, hcs, hstart, hso, hncc⟩ := h
  have habound : a ≤ tlen s := hcs.1
  cases c with
  | cancelAll => exact absurd rfl hnc
  | submit bk =>
    show NCInv (submit s bk)
    obtain ⟨s2, heq, hcur2, hlen2, hbod2, hso2, hmsg2, hcs2, hunt2, hfld2⟩ :=
      submit_chain s bk a hcs
    have hblen2 : s2.bodies.length = tlen s2 := by
      rw [hbod2, hlen2, length_append_one, hblen]
    rw [heq]
    rcases hcurE : s2.current with _ | c
    · rw [if_pos rfl]
      have hsnone : s.current = none := by rw [← hcur2]; exact hcurE
      obtain ⟨hatlen, hsettled⟩ := hncc.2 hsnone
      obtain ⟨b, hpost⟩ := progress_ch (tlen s2 + 1) s2 a hcs2 hblen2 (by omega)
      obtain ⟨hab, hbt, hlp, hbodp, hmsgp, hcsp, huntp, hsop, hstartp,
        hcsomep, hcnonep⟩ := hpost
      refine ⟨?_, b, hcsp, ?_, ?_, ?_, ?_⟩
      · rw [hbodp, hlp]
        exact hblen2
      · intro k hkb
        rcases lt_or_ge k a with hka | hka
        · rw [huntp k hka, (hfld2 k (by omega)).1]
          exact hstart k hka
        · exact (hstartp k hkb hka).1
      · rw [hsop, hso2, hso, range0_glue, Nat.add_sub_cancel' hab]
      · intro c2 hc2
        obtain ⟨hcb1, hcba, hcaw2, hcps2, hcbody2, hcoth2⟩ := hcsomep c2 hc2
        refine ⟨hcb1, hcaw2, hcps2, ?_, ?_⟩
        · unfold getBody
          rw [hbodp]
          exact hcbody2
        · intro k hkb hknc
          rcases lt_or_ge k a with hka | hka
          · rw [huntp k hka]
            constructor
            · rw [(hfld2 k (by omega)).2.2.2.1]
              exact (hsettled k hka).1
            · rw [(hfld2 k (by omega)).2.1]
              exact (hsettled k hka).2
          · exact hcoth2 k hkb hka hknc
      · intro hn
        obtain ⟨hbt2, hset2⟩ := hcnonep hn
        constructor
        · rw [hlp]
          exact hbt2
        · intro k hkb
          rcases lt_or_ge k a with hka | hka
          · rw [huntp k hka]
            constructor
            · rw [(hfld2 k (by omega)).2.2.2.1]
              exact (hsettled k hka).1
            · rw [(hfld2 k (by omega)).2.1]
              exact (hsettled k hka).2
          · exact hset2 k hkb hka
    · rw [if_neg (fun hh => Option.noConfusion hh)]
      have hsc : s.current = some c := by rw [← hcur2]; exact hcurE
      obtain ⟨hc1, hcaw, hcps, hcbody, hcoth⟩ := hncc.1 c hsc
      have hclt : c < tlen s := by omega
      refine ⟨hblen2, a, hcs2, ?_, ?_, ?_, ?_⟩
      · intro k hka
        rw [(hfld2 k (by omega)).1]
        exact hstart k hka
      · rw [hso2]
        exact hso
      · intro c2 hc2
        rw [hcurE] at hc2
        injection hc2 with he
        subst he
        refine ⟨hc1, ?_, ?_, ?_, ?_⟩
        · rw [(hfld2 c hclt).2.1]
          exact hcaw
        · rw [(hfld2 c hclt).2.2.2.1]
          exact hcps
        · unfold getBody
          rw [hbod2, getD_append_lt _ _ _ _ (by rw [hblen]; exact hclt)]
          exact hcbody
        · intro k hka hknc
          have hklt : k < tlen s := by omega
          constructor
          · rw [(hfld2 k hklt).2.2.2.1]
            exact (hcoth k hka hknc).1
          · rw [(hfld2 k hklt).2.1]
            exact (hcoth k hka hknc).2
      · intro hn
        rw [hcurE] at hn
        exact Option.noConfusion hn
  | finish i o =>
    simp only [stepCmd, finish]
    split
    · rename_i haw
      have hilt : i < tlen s := by
        by_contra hge
        rw [show gT s i = mkTask from by
          simp only [gT]
          exact getD_oob _ _ _ (by simp only [tlen] at hge; omega)] at haw
        exact absurd haw (by decide)
      have hia : i < a := by
        by_contra hge
        push_neg at hge
        rw [hcs.2.2.2 i hilt hge] at haw
        exact Bool.noConfusion haw
      have hcur : s.current = some i := by
        rcases hce : s.current with _ | c0
        · have hset := (hncc.2 hce).2 i hia
          rw [hset.2] at haw
          exact Bool.noConfusion haw
        · rcases eq_or_ne i c0 with hie | hne
          · rw [hie]
          · have hset := (hncc.1 c0 hce).2.2.2.2 i hia hne
            rw [hset.2] at haw
            exact Bool.noConfusion haw
      obtain ⟨hc1, hcaw, hcps, hcbody, hcoth⟩ := hncc.1 i hcur
      have hine : ∀ j, a ≤ j → j < tlen s → j ≠ i := by
        intro j hj1 hj2 hji
        subst hji
        omega
      obtain ⟨pf1, pf2, pf3, pf4, pf5, pf6, pf7⟩ := playEnd_fields (gT s i) o
      have hgF : ∀ j, j ≠ i →
          gT { setTask s i (playEnd (gT s i) o).1 with
            errors := s.errors ++ (playEnd (gT s i) o).2 } j = gT s j := by
        intro j hj
        show (s.tasks.set i (playEnd (gT s i) o).1).getD j mkTask = _
        rw [getD_set_of_ne _ _ _ _ _ hj]
        rfl
      have hgFi : gT { setTask s i (playEnd (gT s i) o).1 with
          errors := s.errors ++ (playEnd (gT s i) o).2 } i
          = (playEnd (gT s i) o).1 := by
        show (s.tasks.set i (playEnd (gT s i) o).1).getD i mkTask = _
        exact getD_set_self _ _ _ _ hilt
      have hlF : tlen { setTask s i (playEnd (gT s i) o).1 with
          errors := s.errors ++ (playEnd (gT s i) o).2 } = tlen s := by
        simp [tlen, setTask]
      obtain ⟨hcb, hcnt, hclst, hcmem⟩ := hcs
      have hcsF : ChainShape { setTask s i (playEnd (gT s i) o).1 with
          errors := s.errors ++ (playEnd (gT s i) o).2 } a := by
        refine ⟨by rw [hlF]; exact habound, by rw [hlF]; exact hcnt,
          by rw [hlF]; exact hclst, ?_⟩
        intro j h1 h2
        rw [hlF] at h1 ⊢
        rw [hgF j (hine j h2 h1)]
        exact hcmem j h1 h2
      obtain ⟨b, hpost⟩ := progress_ch
        (({ setTask s i (playEnd (gT s i) o).1 with errors := s.errors ++ (playEnd (gT s i) o).2 } : Sched).tasks.length + 1) _ a hcsF
        (by rw [hlF]; exact hblen)
        (by simp only [tlen, setTask, List.length_set]; omega)
      obtain ⟨hab, hbt, hlp, hbodp, hmsgp, hcsp, huntp, hsop, hstartp,
        hcsomep, hcnonep⟩ := hpost
      refine ⟨?_, b, hcsp, ?_, ?_, ?_, ?_⟩
      · rw [hbodp, hlp, hlF]
        exact hblen
      · intro k hkb
        rcases lt_or_ge k a with hka | hka
        · rw [huntp k hka]
          rcases eq_or_ne k i with hke | hkn
          · subst hke
            rw [hgFi, pf1]
            exact hstart k hka
          · rw [hgF k hkn]
            exact hstart k hka
        · exact (hstartp k hkb hka).1
      · rw [hsop]
        rw [show ({ setTask s i (playEnd (gT s i) o).1 with errors := s.errors ++ (playEnd (gT s i) o).2 } : Sched).startOrder = s.startOrder from rfl]
        rw [hso, range0_glue, Nat.add_sub_cancel' hab]
      · intro c2 hc2
        obtain ⟨hcb1, hcba, hcaw2, hcps2, hcbody2, hcoth2⟩ := hcsomep c2 hc2
        refine ⟨hcb1, hcaw2, hcps2, ?_, ?_⟩
        · unfold getBody
          rw [hbodp]
          exact hcbody2
        · intro k hkb hknc
          rcases lt_or_ge k a with hka | hka
          · rw [huntp k hka]
            rcases eq_or_ne k i with hke | hkn
            · subst hke
              rw [hgFi]
              exact ⟨pf7, pf6⟩
            · rw [hgF k hkn]
              exact hcoth k hka hkn
          · exact hcoth2 k hkb hka hknc
      · intro hn
        obtain ⟨hbt2, hset2⟩ := hcnonep hn
        constructor
        · rw [hlp, hlF]
          rw [hlF] at hbt2
          exact hbt2
        · intro k hkb
          rcases lt_or_ge k a with hka | hka
          · rw [huntp k hka]
            rcases eq_or_ne k i with hke | hkn
            · subst hke
              rw [hgFi]
              exact ⟨pf7, pf6⟩
            · rw [hgF k hkn]
              exact hcoth k hka hkn
          · exact hset2 k hkb hka
    · exact ⟨hblen, a, hcs, hstart, hso, hncc⟩

theorem NC_run (cmds : List Cmd) :
    ∀ s : Sched, NCInv s → NoCancel cmds →
      NCInv (cmds.foldl stepCmd s) := by
  induction cmds with
  | nil =>
    intro s h _
    exact h
  | cons c cs ih =>
    intro s h hnc
    exact ih (stepCmd s c)
      (NC_step s c (hnc c (List.mem_cons_self c cs)) h)
      (fun d hd => hnc d (List.mem_cons_of_mem c hd))

/-- C1 amended: in every run that never invokes `cancelAll`, the started
tasks are exactly an initial block of the submission order, they start in
strict submission order, at most one started task has an unsettled `play`
at any time (single-flight), and a later task starts only after every
earlier task settled its `play`.  (The `Started` state itself is never left
— `Done` is never assigned — so "at most one task in `Started` state" is
false as soon as a second task runs, and after `cancelAll` plus a
resubmission even two unsettled started tasks coexist.) -/
theorem C1_amended_thm (cmds : List Cmd) (hnc : NoCancel cmds) :
    ∃ a, a ≤ tlen (run cmds) ∧
      (run cmds).startOrder = List.range' 0 a ∧
      (∀ i, i < tlen (run cmds) →
        ((gT (run cmds) i).state = TaskState.STARTED ↔ i < a)) ∧
      (∀ i j, (gT (run cmds) i).state = TaskState.STARTED →
        (gT (run cmds) j).state = TaskState.STARTED →
        (gT (run cmds) i).playSettled = false →
        (gT (run cmds) j).playSettled = false → i = j) ∧
      (∀ i j, i < j → j < a → (gT (run cmds) i).playSettled = true) := by
  have h : NCInv (run cmds) := NC_run cmds initSched NCInv_init hnc
  obtain ⟨hblen, a, hcs, hstart, hso, hncc⟩ := h
  have hoob : ∀ k, ¬ k < tlen (run cmds) →
      (gT (run cmds) k).state ≠ TaskState.STARTED := by
    intro k hk
    rw [show gT (run cmds) k = mkTask from by
      simp only [gT]
      exact getD_oob _ _ _ (by simp only [tlen] at hk; omega)]
    exact fun hcon => TaskState.noConfusion hcon
  have hlta : ∀ k, (gT (run cmds) k).state = TaskState.STARTED → k < a := by
    intro k hk
    by_contra hge
    push_neg at hge
    rcases lt_or_ge k (tlen (run cmds)) with hlt | hge2
    · rw [hcs.2.2.2 k hlt hge] at hk
      exact TaskState.noConfusion hk
    · exact hoob k (by omega) hk
  refine ⟨a, hcs.1, hso, ?_, ?_, ?_⟩
  · intro i hi
    exact ⟨hlta i, hstart i⟩
  · intro i j hsi hsj hpi hpj
    have hia : i < a := hlta i hsi
    have hja : j < a := hlta j hsj
    rcases hcur : (run cmds).current with _ | c
    · have := ((hncc.2 hcur).2 i hia).1
      rw [hpi] at this
      exact Bool.noConfusion this
    · obtain ⟨hc1, hcaw, hcps, hcbody, hcoth⟩ := hncc.1 c hcur
      rcases eq_or_ne i c with hie | hine
      · rcases eq_or_ne j c with hje | hjne
        · rw [hie, hje]
        · have := (hcoth j hja hjne).1
          rw [hpj] at this
          exact absurd this (by decide)
      · have := (hcoth i hia hine).1
        rw [hpi] at this
        exact absurd this (by decide)
  · intro i j hij hja
    rcases hcur : (run cmds).current with _ | c
    · exact ((hncc.2 hcur).2 i (by omega)).1
    · obtain ⟨hc1, -, -, -, hcoth⟩ := hncc.1 c hcur
      have hine : i ≠ c := by omega
      exact (hcoth i (by omega) hine).1

/-- Witness: a concrete cancel-free run of two submissions satisfies the
amended C1 statement. -/
theorem C1_amended_witness :
    NoCancel [Cmd.submit BodyKind.pend, Cmd.submit BodyKind.pend] ∧
    ∃ a, a ≤ tlen (run [Cmd.submit BodyKind.pend, Cmd.submit BodyKind.pend]) ∧
      (run [Cmd.submit BodyKind.pend,
        Cmd.submit BodyKind.pend]).startOrder = List.range' 0 a ∧
      (∀ i, i < tlen (run [Cmd.submit BodyKind.pend, Cmd.submit BodyKind.pend]) →
        ((gT (run [Cmd.submit BodyKind.pend,
          Cmd.submit BodyKind.pend]) i).state = TaskState.STARTED ↔ i < a)) ∧
      (∀ i j,
        (gT (run [Cmd.submit BodyKind.pend,
          Cmd.submit BodyKind.pend]) i).state = TaskState.STARTED →
        (gT (run [Cmd.submit BodyKind.pend,
          Cmd.submit BodyKind.pend]) j).state = TaskState.STARTED →
        (gT (run [Cmd.submit BodyKind.pend,
          Cmd.submit BodyKind.pend]) i).playSettled = false →
        (gT (run [Cmd.submit BodyKind.pend,
          Cmd.submit BodyKind.pend]) j).playSettled = false → i = j) ∧
      (∀ i j, i < j → j < a →
        (gT (run [Cmd.submit BodyKind.pend,
          Cmd.submit BodyKind.pend]) i).playSettled = true) :=
  ⟨by unfold NoCancel; decide,
   C1_amended_thm [Cmd.submit BodyKind.pend, Cmd.submit BodyKind.pend]
     (by unfold NoCancel; decide)⟩


end FtpKr
